import Mathlib

/-!
Shallow embedding of the maze-generation core of the Snail repository
(src/modules/game/Maze/Generator/mazeGenerator.js and
src/maze new/maze-utils.js), together with proofs settling the frozen
claims about it.

Modelling conventions:
* Cells are the source's numeric enum values (EMPTY 0, WALL 1, START 2,
  FINISH 3), a grid is a total function from integer coordinates to cells
  (out-of-range cells default to WALL; every source access is guarded by a
  bounds check first, so the default is never consulted).
* `Math.random()` is modelled by an explicit stream `rng : Nat -> Nat`
  together with a running index; `Math.floor(Math.random() * n)` becomes
  `rng k % n`, which ranges over exactly the values the source can draw.
* JavaScript `Set`/`Map` semantics are modelled faithfully.  In
  mazeGenerator.js, `openSet`, `closedSet` hold *array objects* and
  membership/deletion use reference equality (SameValueZero), while
  `gScore`/`fScore`/`cameFrom` are keyed by the string `` `${row},${col}` ``
  (value equality).  Hence in the model: the open set is a list of
  positions to which `delete` never applies (the source always passes a
  freshly constructed array), `has` on a freshly constructed array is
  always false, and the score/come-from maps are functions on positions.
* The A* f-values in mazeGenerator.js are floats `g + |dr| + |dc|*1.2`
  (HEURISTIC_WEIGHT = 1.2 multiplies only the column term, by operator
  precedence in the source).  They are modelled exactly by scaling by 5:
  g contributes 5 per step, h = 5*|dr| + 6*|dc|.  All comparisons the
  proofs rely on have margins far above float rounding error.
* Loops are written with explicit fuel.  Where the source has a real
  iteration cap (A* MAX_ITERATIONS = 10000, maze-utils rows*cols*2,
  difficulty attempt caps) the fuel is that cap.  Where the source loop
  always terminates (carving, BFS) the fuel is a generous bound and the
  theorems are stated so that they hold for any truncation.
* A JavaScript infinite loop (reconstructPath chasing a cyclic cameFrom
  chain) is modelled as the distinguished result `FPResult.diverge`: a
  terminating reconstruction walk visits pairwise distinct keys, of which
  there are at most rows*cols, so exhausting rows*cols + 2 steps means the
  source loop revisits a key and never terminates.
-/

namespace Snail

/-- Cell values, the numeric `CellTypes` enum of the source. -/
abbrev Cell := Nat

/-- `CellTypes.EMPTY` (passable). -/
def cellEMPTY : Cell := 0

/-- `CellTypes.WALL` (impassable). -/
def cellWALL : Cell := 1

/-- `CellTypes.START`. -/
def cellSTART : Cell := 2

/-- `CellTypes.FINISH`. -/
def cellFINISH : Cell := 3

/-- Grid positions `(row, col)`; integers, as in the source (indices may
go negative in intermediate neighbour computations before bounds checks). -/
abbrev Pos := Int × Int

/-- A maze grid: total map from coordinates to cells.  All source reads
are bounds-guarded, so the value outside `[0,rows) x [0,cols)` is never
consulted; we default it to WALL. -/
abbrev Grid := Int → Int → Cell

/-- Functional update of one grid cell (`this.maze[r][c] = v`). -/
def gridSet (g : Grid) (p : Pos) (v : Cell) : Grid :=
  fun r c => if r = p.1 ∧ c = p.2 then v else g r c

/-- The all-wall initial grid (`Array(rows).fill().map(() => Array(cols).fill(WALL))`). -/
def allWalls : Grid := fun _ _ => cellWALL

/-- An explicit random stream standing for the successive values drawn
from `Math.random()`; a call `Math.floor(Math.random()*n)` with stream
index `k` is modelled as `rng k % n`. -/
abbrev RNG := Nat → Nat

/-- Build a stream from a list (unlisted tail defaults to 0). -/
def rngOf (l : List Nat) : RNG := fun k => l.getD k 0

/-- `DIRECTION_OFFSETS` in source (insertion) order: up, down, left, right. -/
def directionOffsets : List (Int × Int) := [(-1, 0), (1, 0), (0, -1), (0, 1)]

/-- Bounds check shared by both implementations (`isValidCell` /
`isInBounds`): `0 <= r < rows && 0 <= c < cols`. -/
def inBoundsB (rows cols : Nat) (r c : Int) : Bool :=
  0 ≤ r && r < (rows : Int) && 0 ≤ c && c < (cols : Int)

/-- The in-bounds passable (non-WALL) 4-neighbours of a position, in the
source's direction order.  This is the adjacency underlying both the BFS
reachability notion and every neighbour enumeration in the code. -/
def passableNeighbors (rows cols : Nat) (g : Grid) (p : Pos) : List Pos :=
  directionOffsets.filterMap (fun off =>
    let q : Pos := (p.1 + off.1, p.2 + off.2)
    if inBoundsB rows cols q.1 q.2 = true ∧ g q.1 q.2 ≠ cellWALL then some q else none)

/-- BFS reachability: `b` is reachable from `a` through in-bounds
non-WALL cells, 4-directionally.  (The origin's own cell type is not
constrained, matching every traversal in the source, none of which
inspects the origin cell.) -/
inductive Reach (rows cols : Nat) (g : Grid) (a : Pos) : Pos → Prop
  | refl : Reach rows cols g a a
  | step {p q : Pos} : Reach rows cols g a p →
      q ∈ passableNeighbors rows cols g p → Reach rows cols g a q

namespace MazeGen

/-- `isValidCell(row, col)` of mazeGenerator.js. -/
def isValidCell (rows cols : Nat) (r c : Int) : Bool :=
  inBoundsB rows cols r c

/-- `getUnvisitedNeighbors(row, col)`: the 2-step neighbours (direction
order up, down, left, right) that are in bounds and still WALL. -/
def getUnvisitedNeighbors (rows cols : Nat) (g : Grid) (row col : Int) : List Pos :=
  directionOffsets.filterMap (fun off =>
    let nr := row + off.1 * 2
    let nc := col + off.2 * 2
    if isValidCell rows cols nr nc = true ∧ g nr nc = cellWALL then some (nr, nc) else none)

/-- `createPath(from, to)`: carve the midpoint and the target to EMPTY.
The midpoint is `from + (to - from)/2` computed over the integers, as in
the source (the difference is always even). -/
def createPath (g : Grid) (fromP toP : Pos) : Grid :=
  gridSet
    (gridSet g (fromP.1 + (toP.1 - fromP.1) / 2, fromP.2 + (toP.2 - fromP.2) / 2) cellEMPTY)
    toP cellEMPTY

/-- The `while (stack.length > 0)` loop of `generateBaseMaze`.  The stack
top is the list head.  One random value is consumed per carving step
(`neighbors[Math.floor(Math.random() * neighbors.length)]`), none on
backtracking.  Fuel-truncated; the bound used by `generateBaseMaze` is
generous and every theorem below is robust to truncation. -/
def carveLoop (rows cols : Nat) (rng : RNG) :
    Nat → List Pos → Grid → Nat → Grid × Nat
  | 0, _, g, k => (g, k)
  | _ + 1, [], g, k => (g, k)
  | fuel + 1, cur :: rest, g, k =>
    let nbrs := getUnvisitedNeighbors rows cols g cur.1 cur.2
    if nbrs.length = 0 then
      carveLoop rows cols rng fuel rest g k
    else
      let nxt := nbrs.getD (rng k % nbrs.length) (0, 0)
      carveLoop rows cols rng fuel (nxt :: cur :: rest) (createPath g cur nxt) (k + 1)

/-- `generateBaseMaze()`: mark `(1,1)` EMPTY and run the randomized DFS
carve from it.  Returns the carved grid and the next random index. -/
def generateBaseMaze (rows cols : Nat) (rng : RNG) (k : Nat) : Grid × Nat :=
  let g0 := gridSet allWalls (1, 1) cellEMPTY
  carveLoop rows cols rng (2 * rows * cols + 2) [(1, 1)] g0 k

/-- State of the `findDistantPoint` BFS: pending queue, the `distances`
matrix (`none` = Infinity), and the running farthest point. -/
structure BfsState where
  queue : List Pos
  dist : Pos → Option Nat
  maxDist : Nat
  maxPoint : Pos

/-- One neighbour examination of the `findDistantPoint` BFS: if the
neighbour in direction `off` of the dequeued cell `cur` (whose distance
is `curDist`) is in bounds, non-WALL and at distance Infinity, set its
distance to `curDist + 1`, enqueue it, and bump the farthest point if it
is strictly farther. -/
def bfsStep (rows cols : Nat) (g : Grid) (curDist : Nat) (cur : Pos)
    (s : BfsState) (off : Int × Int) : BfsState :=
  if isValidCell rows cols (cur.1 + off.1) (cur.2 + off.2) = true ∧
      g (cur.1 + off.1) (cur.2 + off.2) ≠ cellWALL ∧
      s.dist (cur.1 + off.1, cur.2 + off.2) = none then
    if s.maxDist < curDist + 1 then
      { queue := s.queue ++ [(cur.1 + off.1, cur.2 + off.2)],
        dist := fun p => if p = (cur.1 + off.1, cur.2 + off.2) then some (curDist + 1)
                         else s.dist p,
        maxDist := curDist + 1, maxPoint := (cur.1 + off.1, cur.2 + off.2) }
    else
      { queue := s.queue ++ [(cur.1 + off.1, cur.2 + off.2)],
        dist := fun p => if p = (cur.1 + off.1, cur.2 + off.2) then some (curDist + 1)
                         else s.dist p,
        maxDist := s.maxDist, maxPoint := s.maxPoint }
  else s

/-- Process the four neighbours of the dequeued cell in source order. -/
def bfsExpand (rows cols : Nat) (g : Grid) (curDist : Nat) (cur : Pos)
    (st : BfsState) : BfsState :=
  directionOffsets.foldl (bfsStep rows cols g curDist cur) st

/-- The `while (queue.length > 0)` loop of `findDistantPoint`.  Every
queued cell has its distance set (the origin at initialization, the rest
when enqueued), so the `getD 0` default is never consulted. -/
def bfsLoop (rows cols : Nat) (g : Grid) : Nat → BfsState → BfsState
  | 0, st => st
  | fuel + 1, st =>
    match st.queue with
    | [] => st
    | cur :: rest =>
      let d := (st.dist cur).getD 0
      bfsLoop rows cols g fuel (bfsExpand rows cols g d cur { st with queue := rest })

/-- `findDistantPoint(startRow, startCol)`: BFS farthest point from the
origin over non-WALL cells. -/
def findDistantPoint (rows cols : Nat) (g : Grid) (startRow startCol : Int) : Pos :=
  let st0 : BfsState :=
    { queue := [(startRow, startCol)],
      dist := fun p => if p = (startRow, startCol) then some 0 else none,
      maxDist := 0, maxPoint := (startRow, startCol) }
  (bfsLoop rows cols g (rows * cols + 2) st0).maxPoint

/-- `addStartAndFinish()`: write START at `(1,1)`, then place FINISH at
the BFS-farthest point from `(1,1)` (computed on the grid that already
holds the START, as in the source).  Returns the grid and both points. -/
def addStartAndFinish (rows cols : Nat) (g : Grid) : Grid × Pos × Pos :=
  let g1 := gridSet g (1, 1) cellSTART
  let fin := findDistantPoint rows cols g1 1 1
  (gridSet g1 fin cellFINISH, (1, 1), fin)

/-- The four difficulty tiers (`DifficultyLevels`). -/
inductive Difficulty
  | easy
  | medium
  | hard
  | extreme
deriving DecidableEq, Repr

/-- `difficultySettings[..].wallCount` as the exact count
`Math.floor(rows*cols*ratio)`; the ratios 0.1/0.2/0.3/0.4 are exact
rationals, and `floor` of the product equals the integer division below
(the float evaluation agrees on every instance used in this file). -/
def wallCount (rows cols : Nat) : Difficulty → Nat
  | .easy => rows * cols / 10
  | .medium => rows * cols * 2 / 10
  | .hard => rows * cols * 3 / 10
  | .extreme => rows * cols * 4 / 10

/-- `difficultySettings[..].pathCount` (ratios 0.2/0.1/0.05/0.02),
modelled like `wallCount`. -/
def pathCount (rows cols : Nat) : Difficulty → Nat
  | .easy => rows * cols * 2 / 10
  | .medium => rows * cols / 10
  | .hard => rows * cols * 5 / 100
  | .extreme => rows * cols * 2 / 100

/-- The `for (let i = 0; i < wallCount; i++)` loop of `addRandomWalls`:
pick a random interior cell (two random draws) and turn it into WALL if
it is currently EMPTY.  No connectivity check of any kind. -/
def addRandomWallsLoop (rows cols : Nat) (rng : RNG) :
    Nat → Grid → Nat → Grid × Nat
  | 0, g, k => (g, k)
  | n + 1, g, k =>
    let row : Int := (rng k % (rows - 2) : Nat) + 1
    let col : Int := (rng (k + 1) % (cols - 2) : Nat) + 1
    let g' := if g row col = cellEMPTY then gridSet g (row, col) cellWALL else g
    addRandomWallsLoop rows cols rng n g' (k + 2)

/-- `addRandomWalls(ratio)` of mazeGenerator.js. -/
def addRandomWalls (rows cols : Nat) (rng : RNG) (count : Nat) (g : Grid) (k : Nat) :
    Grid × Nat :=
  addRandomWallsLoop rows cols rng count g k

/-- The loop of `addRandomPaths`: pick a random interior cell and turn it
into EMPTY if it is currently WALL. -/
def addRandomPathsLoop (rows cols : Nat) (rng : RNG) :
    Nat → Grid → Nat → Grid × Nat
  | 0, g, k => (g, k)
  | n + 1, g, k =>
    let row : Int := (rng k % (rows - 2) : Nat) + 1
    let col : Int := (rng (k + 1) % (cols - 2) : Nat) + 1
    let g' := if g row col = cellWALL then gridSet g (row, col) cellEMPTY else g
    addRandomPathsLoop rows cols rng n g' (k + 2)

/-- `addRandomPaths(ratio)` of mazeGenerator.js. -/
def addRandomPaths (rows cols : Nat) (rng : RNG) (count : Nat) (g : Grid) (k : Nat) :
    Grid × Nat :=
  addRandomPathsLoop rows cols rng count g k

/-- `adjustDifficulty()`: add random walls, then random paths, with the
tier's counts. -/
def adjustDifficulty (rows cols : Nat) (rng : RNG) (d : Difficulty) (g : Grid) (k : Nat) :
    Grid × Nat :=
  let r1 := addRandomWalls rows cols rng (wallCount rows cols d) g k
  addRandomPaths rows cols rng (pathCount rows cols d) r1.1 r1.2

/-- `findCell(type)`: row-major scan for the first cell of the given type. -/
def findCell (rows cols : Nat) (g : Grid) (t : Cell) : Option Pos :=
  (List.range rows).findSome? (fun r =>
    (List.range cols).findSome? (fun c =>
      if g (r : Int) (c : Int) = t then some ((r : Int), (c : Int)) else none))

/-- `heuristic(row1, col1, row2, col2)` of mazeGenerator.js, scaled by 5
to stay in the integers: the source computes
`|row2-row1| + |col2-col1| * 1.2` (the HEURISTIC_WEIGHT multiplies only
the column term), i.e. `(5*|dr| + 6*|dc|) / 5`. -/
def heuristic (r1 c1 r2 c2 : Int) : Nat :=
  5 * (r2 - r1).natAbs + 6 * (c2 - c1).natAbs

/-- State of the mazeGenerator.js A*: the open multiset in insertion
order, and the string-keyed score and predecessor maps.  There is no
closed-set component: the source's `closedSet.has(neighbor)` always
tests a freshly constructed array and is therefore always false, so the
closed set never influences the computation. -/
structure AStarState where
  openSet : List Pos
  gScore : Pos → Option Nat
  fScore : Pos → Option Nat
  cameFrom : Pos → Option Pos

/-- The minimum-fScore scan of the source: walk the open set in
insertion order keeping the first entry whose fScore is strictly below
the running minimum; entries with no fScore are skipped (in JS,
`undefined < minFScore` is false).  Returns the chosen position and its
f-value, or `none` if nothing qualified (the source then breaks and
returns null). -/
def scanStep (fS : Pos → Option Nat) (acc : Option (Pos × Nat)) (p : Pos) :
    Option (Pos × Nat) :=
  match fS p with
  | none => acc
  | some f =>
    match acc with
    | none => some (p, f)
    | some (q, m) => if f < m then some (p, f) else some (q, m)

/-- Fold of `scanStep` over the open set in insertion order. -/
def scanMinFScore (fS : Pos → Option Nat) (l : List Pos) : Option (Pos × Nat) :=
  l.foldl (scanStep fS) none

/-- Neighbour expansion of one A* iteration of mazeGenerator.js.  For
each in-bounds non-WALL 4-neighbour (source direction order): since
`closedSet.has(neighbor)` and `openSet.has(neighbor)` always test a
fresh array and are false, the source unconditionally takes the
"not in open set" branch, overwriting gScore/fScore/cameFrom for the
neighbour's key and appending yet another copy of the neighbour to the
open set.  `gScore.get` of the current cell is always set; the `getD 0`
default is never consulted. -/
def expandStep (rows cols : Nat) (g : Grid) (endR endC : Int) (cur : Pos)
    (s : AStarState) (off : Int × Int) : AStarState :=
  let nr := cur.1 + off.1
  let nc := cur.2 + off.2
  if isValidCell rows cols nr nc = true ∧ g nr nc ≠ cellWALL then
    let tg := (s.gScore cur).getD 0 + 5
    { openSet := s.openSet ++ [(nr, nc)],
      gScore := fun p => if p = (nr, nc) then some tg else s.gScore p,
      fScore := fun p => if p = (nr, nc) then some (tg + heuristic nr nc endR endC)
                         else s.fScore p,
      cameFrom := fun p => if p = (nr, nc) then some cur else s.cameFrom p }
  else s

/-- Fold of `expandStep` over the four directions in source order. -/
def expandNeighbors (rows cols : Nat) (g : Grid) (endR endC : Int) (cur : Pos)
    (st : AStarState) : AStarState :=
  directionOffsets.foldl (expandStep rows cols g endR endC cur) st

/-- Result of mazeGenerator.js `findPath`: a path, the JS `null`, or
non-termination of the reconstruction loop (a JS hang). -/
inductive FPResult
  | path (p : List Pos)
  | noPath
  | diverge
deriving DecidableEq, Repr

/-- The `while (cameFrom.has(...))` walk of `reconstructPath`, building
the path back-to-front.  Fuel-truncated at the caller's `rows*cols + 2`:
a terminating walk visits pairwise distinct keys and all keys are
in-bounds cells, so exhausting that fuel means the source loop revisits
a key, whereupon it cycles forever. -/
def reconstructLoop (cf : Pos → Option Pos) : Nat → Pos → List Pos → Option (List Pos)
  | 0, _, _ => none
  | fuel + 1, cur, acc =>
    match cf cur with
    | none => some (cur :: acc)
    | some prev => reconstructLoop cf fuel prev (cur :: acc)

/-- The main `while (openSet.size > 0 && iterations < MAX_ITERATIONS)`
loop of mazeGenerator.js `findPath`.  The fuel is the genuine iteration
budget `MAX_ITERATIONS - iterations`.  The source's
`openSet.delete(current)` removes nothing (reference equality against a
fresh array), so the open set only ever grows; `closedSet` is write-only
dead state and is omitted. -/
def astarLoop (rows cols : Nat) (g : Grid) (endR endC : Int) :
    Nat → AStarState → FPResult
  | 0, _ => .noPath
  | fuel + 1, st =>
    if st.openSet = [] then .noPath
    else
      match scanMinFScore st.fScore st.openSet with
      | none => .noPath
      | some (cur, _) =>
        if cur.1 = endR ∧ cur.2 = endC then
          match reconstructLoop st.cameFrom (rows * cols + 2) cur [] with
          | some p => .path p
          | none => .diverge
        else
          astarLoop rows cols g endR endC fuel (expandNeighbors rows cols g endR endC cur st)

/-- `PathfindingSettings.MAX_ITERATIONS`. -/
def maxIterations : Nat := 10000

/-- `findPath(startRow, startCol, endRow, endCol)` of mazeGenerator.js. -/
def findPath (rows cols : Nat) (g : Grid) (sR sC eR eC : Int) : FPResult :=
  let st0 : AStarState :=
    { openSet := [(sR, sC)],
      gScore := fun p => if p = (sR, sC) then some 0 else none,
      fScore := fun p => if p = (sR, sC) then some (heuristic sR sC eR eC) else none,
      cameFrom := fun _ => none }
  astarLoop rows cols g eR eC maxIterations st0

/-- `ensureBoundaryWalls()`: force every cell of row 0, row rows-1,
column 0 and column cols-1 to WALL; all other cells are untouched. -/
def ensureBoundaryWalls (rows cols : Nat) (g : Grid) : Grid :=
  fun r c =>
    if r = 0 ∨ r = (rows : Int) - 1 ∨ c = 0 ∨ c = (cols : Int) - 1 then cellWALL
    else g r c

/-- The grid after `generateBaseMaze` (random index starts at 0). -/
def carveOut (rows cols : Nat) (rng : RNG) : Grid × Nat :=
  generateBaseMaze rows cols rng 0

/-- The grid and start/finish after `addStartAndFinish`. -/
def stagePlaced (rows cols : Nat) (rng : RNG) : Grid × Pos × Pos :=
  addStartAndFinish rows cols (carveOut rows cols rng).1

/-- The grid after `adjustDifficulty`. -/
def stageAdjusted (rows cols : Nat) (d : Difficulty) (rng : RNG) : Grid :=
  (adjustDifficulty rows cols rng d (stagePlaced rows cols rng).1 (carveOut rows cols rng).2).1

/-- The grid `generate()` returns when it returns: the adjusted grid with
the boundary sealed last. -/
def sealedGrid (rows cols : Nat) (d : Difficulty) (rng : RNG) : Grid :=
  ensureBoundaryWalls rows cols (stageAdjusted rows cols d rng)

/-- Failure modes of a `generate()` call: the validation rejection, the
`'Failed to generate valid maze: no path exists'` throw, and a JS hang
inside `findPath`'s reconstruction. -/
inductive GenFailure
  | invalidDimensions
  | generationFailed
  | nonTermination
deriving DecidableEq, Repr

/-- `generate()` of mazeGenerator.js: carve, place start/finish, adjust
difficulty, check `ensurePathExists` (locating START and FINISH by
`findCell` and running the A*), then seal the boundary.  The source
returns only the grid; the start/finish components are the cells
`addStartAndFinish` placed, which is what the spec's MazeResult names. -/
def generate (rows cols : Nat) (d : Difficulty) (rng : RNG) :
    Except GenFailure (Grid × Pos × Pos) :=
  match findCell rows cols (stageAdjusted rows cols d rng) cellSTART,
        findCell rows cols (stageAdjusted rows cols d rng) cellFINISH with
  | some sp, some fp =>
    match findPath rows cols (stageAdjusted rows cols d rng) sp.1 sp.2 fp.1 fp.2 with
    | .path _ => .ok (sealedGrid rows cols d rng,
        (stagePlaced rows cols rng).2.1, (stagePlaced rows cols rng).2.2)
    | .noPath => .error .generationFailed
    | .diverge => .error .nonTermination
  | _, _ => .error .generationFailed

/-- `CONFIG.MAZE.HEIGHT` (the fallback when `options.rows` is falsy). -/
def defaultRows : Int := 20

/-- `CONFIG.MAZE.WIDTH` (the fallback when `options.cols` is falsy). -/
def defaultCols : Int := 20

/-- `options.rows || CONFIG.MAZE.HEIGHT || 20`: a JS number is falsy
exactly when it is 0 (we model integer inputs), so 0 silently selects
the configured default dimension. -/
def resolveDim (opt dflt : Int) : Int :=
  if opt = 0 then dflt else opt

/-- Difficulty-name resolution: `options.difficulty || 'medium'` followed
by `validateParameters`' fallback of any unrecognized name to medium. -/
def parseDifficulty : String → Difficulty
  | "easy" => .easy
  | "medium" => .medium
  | "hard" => .hard
  | "extreme" => .extreme
  | _ => .medium

/-- The dimension checks of `validateParameters()` (integer inputs, so
the `Number.isInteger` guards always pass). -/
def validateParameters (rows cols : Int) : Except GenFailure Unit :=
  if rows < 5 then .error .invalidDimensions
  else if cols < 5 then .error .invalidDimensions
  else .ok ()

/-- The `new MazeGenerator(options)` constructor: option defaulting
followed by `validateParameters`.  On success it yields the resolved
dimensions and difficulty; on failure, the invalid-dimensions rejection
(in mazeGenerator.js the constructor re-throws it wrapped in an
InitializationError carrying the invalid-dimensions message; in
maze-utils.js the ValidationError propagates as is). -/
def constructorResult (rows cols : Int) (diff : String) :
    Except GenFailure (Nat × Nat × Difficulty) :=
  let rows' := resolveDim rows defaultRows
  let cols' := resolveDim cols defaultCols
  match validateParameters rows' cols' with
  | .error e => .error e
  | .ok _ => .ok (rows'.toNat, cols'.toNat, parseDifficulty diff)

/-- The whole `generate(rows, cols, difficulty)` entry point of the
spec: construct the generator, and only if that succeeded run
`generate()`.  The match structure shows that a validation failure
happens before any grid is touched. -/
def generateCall (rows cols : Int) (diff : String) (rng : RNG) :
    Except GenFailure (Grid × Pos × Pos) :=
  match constructorResult rows cols diff with
  | .error e => .error e
  | .ok (r, c, d) => generate r c d rng

/-- The generator object state visible to `findPath` (`this.rows`,
`this.cols`, `this.maze`); used to state the frame property that
`findPath` does not mutate the grid. -/
structure GenState where
  rows : Nat
  cols : Nat
  maze : Grid

/-- `findPath` as a state transformer on the generator object: the
method body contains no assignment to `this`, so the translation reads
the state and returns it unchanged. -/
def findPathStateful (st : GenState) (sR sC eR eC : Int) : FPResult × GenState :=
  (findPath st.rows st.cols st.maze sR sC eR eC, st)

/-- Length of the path a `findPath` result yields, if any. -/
def pathLen : FPResult → Option Nat
  | .path p => some p.length
  | .noPath => none
  | .diverge => none

end MazeGen

namespace MazeUtils

/-- `isInBounds(row, col, rows, cols)` of maze-utils.js. -/
def isInBounds (r c : Int) (rows cols : Nat) : Bool :=
  inBoundsB rows cols r c

/-- `getNeighbors(maze, row, col)`: in-bounds non-WALL 4-neighbours in
source order (up, down, left, right).  The source tags each entry with a
direction string used only as metadata; the tags are dropped here. -/
def getNeighbors (rows cols : Nat) (g : Grid) (r c : Int) : List Pos :=
  directionOffsets.filterMap (fun off =>
    let nr := r + off.1
    let nc := c + off.2
    if isInBounds nr nc rows cols = true ∧ g nr nc ≠ cellWALL then some (nr, nc) else none)

/-- `heuristic(row1, col1, row2, col2)` of maze-utils.js: the plain
Manhattan distance (no weight). -/
def heuristic (r1 c1 r2 c2 : Int) : Nat :=
  (r1 - r2).natAbs + (c1 - c2).natAbs

/-- An A* open-set node of maze-utils.js `findPath`: position, g-cost,
f-value and parent link (`parent: null` for the start node). -/
inductive Node where
  | mk (pos : Pos) (g : Nat) (f : Nat) (parent : Option Node)

/-- Position of a node. -/
def Node.pos : Node → Pos
  | .mk p _ _ _ => p

/-- g-cost of a node. -/
def Node.g : Node → Nat
  | .mk _ g _ _ => g

/-- f-value of a node. -/
def Node.f : Node → Nat
  | .mk _ _ f _ => f

/-- Parent link of a node. -/
def Node.parent : Node → Option Node
  | .mk _ _ _ par => par

/-- The `for (let i = 1; i < openSet.length; i++)` minimum-f scan
(strict comparison, so the first minimum wins), continued from index
`i` with running best index/value. -/
def lowestFrom : List Node → Nat → Nat → Nat → Nat
  | [], _, best, _ => best
  | n :: rest, i, best, bestF =>
    if n.f < bestF then lowestFrom rest (i + 1) i n.f
    else lowestFrom rest (i + 1) best bestF

/-- Index of the open-set node with the lowest f (first on ties). -/
def lowestIndex : List Node → Nat
  | [] => 0
  | n :: rest => lowestFrom rest 1 0 n.f

/-- Modelled from the spec: the path reconstruction of maze-utils.js
`findPath`, whose text after the minimum-f selection is missing from the
sources; it mirrors the intact `createPath` A* in the same file (walk
`temp.parent` pushing each node's position, push the start, reverse) and
spec section 4.4 ("reconstructs the path by walking predecessor links
back to start, producing an ordered sequence from start to finish
inclusive"). -/
def collectPath : Node → List Pos
  | .mk _ _ _ none => []
  | .mk p _ _ (some par) => p :: collectPath par

/-- Modelled from the spec: reconstruction entry point (see
`collectPath`); the result always contains at least the start. -/
def reconstructNode (sR sC : Int) (cur : Node) : List Pos :=
  (collectPath cur ++ [(sR, sC)]).reverse

/-- Modelled from the spec: neighbour processing of one maze-utils.js
A* iteration, mirroring the intact `createPath` loop in the same file:
skip closed keys; compute g/h/f; if a node with this position is already
open, update it in place when the new g is strictly better, otherwise
push a fresh node. -/
def processNeighbor (cur : Node) (fR fC : Int) (closed : List Pos)
    (os : List Node) (q : Pos) : List Node :=
  if q ∈ closed then os
  else
    match os.find? (fun n => n.pos == q) with
    | some ex =>
      if cur.g + 1 < ex.g then
        os.map (fun n => if n.pos == q then
          Node.mk q (cur.g + 1) (cur.g + 1 + heuristic q.1 q.2 fR fC) (some cur) else n)
      else os
    | none => os ++ [Node.mk q (cur.g + 1) (cur.g + 1 + heuristic q.1 q.2 fR fC) (some cur)]

/-- Modelled from the spec: the main loop of maze-utils.js `findPath`
after its visible head (open-set initialization, iteration cap
`rows*cols*2`, minimum-f selection): pop the minimum node, return the
reconstructed path on reaching the finish, otherwise close its position
(`closedSet.add`, a string-keyed set, so by value) and process its
passable neighbours; an exhausted open set or iteration cap yields the
empty sequence (the callers test `path.length === 0`).  The fuel is the
genuine iteration budget. -/
def muAStarLoop (rows cols : Nat) (g : Grid) (sR sC fR fC : Int) :
    Nat → List Node → List Pos → List Pos
  | 0, _, _ => []
  | _ + 1, [], _ => []
  | fuel + 1, n0 :: rest, closed =>
    let cur := (n0 :: rest).getD (lowestIndex (n0 :: rest)) n0
    if cur.pos = (fR, fC) then reconstructNode sR sC cur
    else
      muAStarLoop rows cols g sR sC fR fC fuel
        ((getNeighbors rows cols g cur.pos.1 cur.pos.2).foldl
          (processNeighbor cur fR fC (cur.pos :: closed))
          ((n0 :: rest).eraseIdx (lowestIndex (n0 :: rest))))
        (cur.pos :: closed)

/-- `findPath(maze, startRow, startCol, finishRow, finishCol)` of
maze-utils.js: start node with g = 0, h = f = Manhattan heuristic,
`parent: null`; iteration cap `this.rows * this.cols * 2`. -/
def findPath (rows cols : Nat) (g : Grid) (sR sC fR fC : Int) : List Pos :=
  let h0 := heuristic sR sC fR fC
  muAStarLoop rows cols g sR sC fR fC (rows * cols * 2) [Node.mk (sR, sC) 0 h0 none] []

/-- The `while (wallsAdded < count && attempts < maxAttempts)` loop of
maze-utils.js `addRandomWalls`: draw a random interior cell (two draws);
skip unless it is EMPTY and neither start nor finish; tentatively wall
it; keep the wall exactly when `findPath` still returns a non-empty
path, else revert.  First fuel argument: remaining attempts; second:
remaining walls to add. -/
def addRandomWallsLoop (rows cols : Nat) (rng : RNG) (sR sC fR fC : Int) :
    Nat → Nat → Grid → Nat → Grid × Nat
  | _, 0, g, k => (g, k)
  | 0, _ + 1, g, k => (g, k)
  | att + 1, wr + 1, g, k =>
    let row : Int := 1 + (rng k % (rows - 2) : Nat)
    let col : Int := 1 + (rng (k + 1) % (cols - 2) : Nat)
    if g row col ≠ cellEMPTY ∨ (row = sR ∧ col = sC) ∨ (row = fR ∧ col = fC) then
      addRandomWallsLoop rows cols rng sR sC fR fC att (wr + 1) g (k + 2)
    else
      let g' := gridSet g (row, col) cellWALL
      if findPath rows cols g' sR sC fR fC = [] then
        addRandomWallsLoop rows cols rng sR sC fR fC att (wr + 1) g (k + 2)
      else
        addRandomWallsLoop rows cols rng sR sC fR fC att wr g' (k + 2)

/-- `addRandomWalls(maze, count, startRow, startCol, finishRow,
finishCol)` of maze-utils.js (`maxAttempts = count * 3`; the deep copies
are value semantics here). -/
def addRandomWalls (rows cols : Nat) (rng : RNG) (g : Grid) (count : Nat)
    (sR sC fR fC : Int) (k : Nat) : Grid × Nat :=
  addRandomWallsLoop rows cols rng sR sC fR fC (count * 3) count g k

/-- The stepping loop of `getRandomPath`: up to `steps` random moves,
one random draw per step, stopping early when no passable neighbour
remains.  (The source's `attempts` counter equals the number of
completed steps, so its `maxAttempts = steps * 2` guard never binds.) -/
def getRandomPathLoop (rows cols : Nat) (g : Grid) (rng : RNG) :
    Nat → Int → Int → Nat → List Pos
  | 0, _, _, _ => []
  | n + 1, r, c, k =>
    match getNeighbors rows cols g r c with
    | [] => []
    | q0 :: rest =>
      let q := (q0 :: rest).getD (rng k % (q0 :: rest).length) q0
      q :: getRandomPathLoop rows cols g rng n q.1 q.2 (k + 1)

/-- `getRandomPath(maze, startRow, startCol, steps)` of maze-utils.js:
returns `[]` for an out-of-bounds start or `steps <= 0` (modelled on
naturals, so `steps = 0`), otherwise the start followed by the random
walk. -/
def getRandomPath (rows cols : Nat) (g : Grid) (sR sC : Int) (steps : Nat)
    (rng : RNG) (k : Nat) : List Pos :=
  if isInBounds sR sC rows cols = false then []
  else if steps = 0 then []
  else (sR, sC) :: getRandomPathLoop rows cols g rng steps sR sC k

/-- `ensureBoundaryWalls(maze)` of maze-utils.js: identical to the
mazeGenerator.js pass (it operates on a deep copy and returns it). -/
def ensureBoundaryWalls (rows cols : Nat) (g : Grid) : Grid :=
  fun r c =>
    if r = 0 ∨ r = (rows : Int) - 1 ∨ c = 0 ∨ c = (cols : Int) - 1 then cellWALL
    else g r c

end MazeUtils

/-! Concrete instances used by counterexamples, failing-input runs and
witnesses. -/

/-- Random stream of a concrete 5 by 6 `generate` run: five carving draws
1,0,0,0,0 (carving the tree (1,1)-(1,3)-(3,3) with branches to (3,1) and
(3,5)-(1,5), so the BFS-farthest cell is (1,5), which lies on the last
column since cols = 6 is even), three easy-tier wall draws hitting the
START cell (no-ops), then path draws whose first pick opens (1,4). -/
def rngRun56 : RNG :=
  rngOf [1, 0, 0, 0, 0, 0, 0, 0, 0, 0, 0, 0, 3, 0, 0, 0, 0, 0, 0, 0, 0, 0, 0]

/-- A 3 by 12 grid whose row 1 is a single one-cell-wide passable corridor
from (1,1) to (1,10); every other cell is WALL. -/
def gridCorridor : Grid :=
  fun r c => if r = 1 ∧ 1 ≤ c ∧ c ≤ 10 then cellEMPTY else cellWALL

/-- A 4 by 3 grid whose only passable cells are the vertically adjacent
(1,1) and (2,1). -/
def gridVert : Grid :=
  fun r c => if (r = 1 ∨ r = 2) ∧ c = 1 then cellEMPTY else cellWALL

/-- A 5 by 5 grid with two isolated passable cells (1,1) and (3,3);
neither is reachable from the other. -/
def gridIso : Grid :=
  fun r c => if (r = 1 ∧ c = 1) ∨ (r = 3 ∧ c = 3) then cellEMPTY else cellWALL

/-- A 5 by 5 grid holding START (1,1), an EMPTY corridor cell (1,2) and
FINISH (1,3), walls elsewhere. -/
def gridCorr3 : Grid :=
  fun r c =>
    if r = 1 ∧ c = 1 then cellSTART
    else if r = 1 ∧ c = 2 then cellEMPTY
    else if r = 1 ∧ c = 3 then cellFINISH
    else cellWALL

/-- Random stream whose first two draws select the interior cell (1,2). -/
def rngPick12 : RNG := rngOf [0, 1]

/-- The grid `MazeGen.addRandomWalls` leaves behind on `gridCorr3` with
the hard-tier wall count and `rngPick12`: the first draw walls the only
corridor cell (1,2) with no connectivity check. -/
def gridCorr3Walled : Grid :=
  (MazeGen.addRandomWalls 5 5 rngPick12 (MazeGen.wallCount 5 5 .hard) gridCorr3 0).1

/-- Decidable check that consecutive entries of a list are passable
neighbours (used to exhibit concrete reachability witnesses). -/
def chainOk (rows cols : Nat) (g : Grid) : List Pos → Bool
  | [] => true
  | [_] => true
  | p :: q :: l => decide (q ∈ passableNeighbors rows cols g p) && chainOk rows cols g (q :: l)

/-- The finite set of in-bounds positions of a rows by cols grid; its
cardinality rows * cols bounds every duplicate-free list of in-bounds
positions, which is what makes the A* iteration caps sufficient. -/
def inBoundsFinset (rows cols : Nat) : Finset Pos :=
  (Finset.range rows ×ˢ Finset.range cols).image (fun rc => ((rc.1 : Int), (rc.2 : Int)))

/-! General helper lemmas. -/

/-- Any list set that contains `a` and is closed under passable
neighbours contains everything reachable from `a`. -/
theorem reach_subset_closed {rows cols : Nat} {g : Grid} {a b : Pos} (R : List Pos)
    (ha : a ∈ R)
    (hcl : ∀ p ∈ R, ∀ q ∈ passableNeighbors rows cols g p, q ∈ R) :
    Reach rows cols g a b → b ∈ R := by
  intro h
  induction h with
  | refl => exact ha
  | step _ hq ih => exact hcl _ ih _ hq

/-- `List.getD` yields a member of the list or the default. -/
theorem getD_mem_or_eq {α : Type} :
    ∀ (l : List α) (i : Nat) (d : α), l.getD i d ∈ l ∨ l.getD i d = d
  | [], _, d => Or.inr rfl
  | a :: _, 0, _ => Or.inl (List.mem_cons_self _ _)
  | _ :: l, i + 1, d => by
    rcases getD_mem_or_eq l i d with h | h
    · exact Or.inl (List.mem_cons_of_mem _ h)
    · exact Or.inr h

/-- `List.getD` with a default already in the list yields a member. -/
theorem getD_mem {α : Type} (l : List α) (i : Nat) (d : α) (hd : d ∈ l) :
    l.getD i d ∈ l := by
  rcases getD_mem_or_eq l i d with h | h
  · exact h
  · rw [h]; exact hd

/-! C3: dimension validation. -/

/-- C3 (amended): for integer inputs with nonzero rows and cols, the
`generate(rows, cols, difficulty)` call fails with the invalid-dimensions
validation rejection whenever `rows < 5` or `cols < 5`, before any maze
construction (the rejection is produced by the constructor match, ahead
of `generate()`); in particular `generate(4, 20, d)` fails for every
difficulty and random stream. -/
theorem generateCall_rejects_small_dims (rows cols : Int) (diff : String) (rng : RNG)
    (hr : rows ≠ 0) (hc : cols ≠ 0) (hlt : rows < 5 ∨ cols < 5) :
    MazeGen.generateCall rows cols diff rng = .error .invalidDimensions ∧
    MazeGen.generateCall 4 20 diff rng = .error .invalidDimensions := by
  refine ⟨?_, rfl⟩
  simp only [MazeGen.generateCall, MazeGen.constructorResult, MazeGen.resolveDim,
    MazeGen.validateParameters, if_neg hr, if_neg hc]
  rcases hlt with h | h
  · rw [if_pos h]
  · by_cases h5 : rows < 5
    · rw [if_pos h5]
    · rw [if_neg h5, if_pos h]

/-- Witness for `generateCall_rejects_small_dims` at rows 4, cols 20. -/
theorem generateCall_rejects_small_dims_witness :
    (4 : Int) ≠ 0 ∧ (20 : Int) ≠ 0 ∧ ((4 : Int) < 5 ∨ (20 : Int) < 5) ∧
    MazeGen.generateCall 4 20 "extreme" (rngOf []) = .error .invalidDimensions :=
  ⟨by decide, by decide, Or.inl (by decide),
    (generateCall_rejects_small_dims 4 20 "extreme" (rngOf []) (by decide) (by decide)
      (Or.inl (by decide))).1⟩

/-- C3 (counterexample): with `rows = 0 < 5` the call is not rejected at
all: `options.rows || CONFIG.MAZE.HEIGHT || 20` treats 0 as falsy, the
constructor silently substitutes the default 20 by 20 dimensions, and
the call proceeds to `generate()` on the defaults. -/
theorem generateCall_zero_rows_not_rejected :
    MazeGen.constructorResult 0 20 "easy" = .ok (20, 20, .easy) ∧
    (∀ rng : RNG, MazeGen.generateCall 0 20 "easy" rng = MazeGen.generate 20 20 .easy rng) :=
  ⟨rfl, fun _ => rfl⟩

/-! C7: findPath purity and repeat-call agreement. -/

/-- C7: `findPath` leaves the generator state (in particular `this.maze`)
unchanged, and a second call on the state returned by the first yields
the same result, hence a path of the same length. -/
theorem findPath_pure_and_repeatable (st : MazeGen.GenState) (sR sC eR eC : Int) :
    (MazeGen.findPathStateful st sR sC eR eC).2 = st ∧
    (MazeGen.findPathStateful ((MazeGen.findPathStateful st sR sC eR eC).2) sR sC eR eC).1 =
      (MazeGen.findPathStateful st sR sC eR eC).1 ∧
    MazeGen.pathLen ((MazeGen.findPathStateful ((MazeGen.findPathStateful st sR sC eR eC).2)
        sR sC eR eC).1) =
      MazeGen.pathLen ((MazeGen.findPathStateful st sR sC eR eC).1) :=
  ⟨rfl, rfl, rfl⟩

/-! C8: boundary sealing. -/

/-- C8: every perimeter cell of the grid `generate` returns is WALL, for
every difficulty tier and random stream, because `ensureBoundaryWalls`
runs last and unconditionally overwrites the perimeter (stated for the
sealed pipeline grid, for any grid returned by a successful `generate`,
and for both implementations' sealing passes on arbitrary grids). -/
theorem generate_perimeter_walls (rows cols : Nat) (d : MazeGen.Difficulty) (rng : RNG)
    (r c : Int) (hper : r = 0 ∨ r = (rows : Int) - 1 ∨ c = 0 ∨ c = (cols : Int) - 1) :
    MazeGen.sealedGrid rows cols d rng r c = cellWALL ∧
    (∀ g s f, MazeGen.generate rows cols d rng = .ok (g, s, f) → g r c = cellWALL) ∧
    (∀ g : Grid, MazeGen.ensureBoundaryWalls rows cols g r c = cellWALL) ∧
    (∀ g : Grid, MazeUtils.ensureBoundaryWalls rows cols g r c = cellWALL) := by
  have hseal : ∀ g : Grid, MazeGen.ensureBoundaryWalls rows cols g r c = cellWALL := by
    intro g
    simp only [MazeGen.ensureBoundaryWalls]
    rw [if_pos hper]
  refine ⟨hseal _, ?_, hseal, ?_⟩
  · intro g s f h
    have hg : g = MazeGen.sealedGrid rows cols d rng := by
      unfold MazeGen.generate at h
      split at h
      · split at h
        · rw [Except.ok.injEq] at h
          exact (congrArg Prod.fst h).symm
        · exact absurd h (by simp)
        · exact absurd h (by simp)
      · exact absurd h (by simp)
    rw [hg]
    exact hseal _
  · intro g
    simp only [MazeUtils.ensureBoundaryWalls]
    rw [if_pos hper]

/-- Witness for `generate_perimeter_walls` at a 5 by 5 grid, cell (0,2). -/
theorem generate_perimeter_walls_witness :
    ((0 : Int) = 0 ∨ (0 : Int) = (5 : Nat) - 1 ∨ (2 : Int) = 0 ∨ (2 : Int) = (5 : Nat) - 1) ∧
    MazeGen.sealedGrid 5 5 .medium (rngOf []) 0 2 = cellWALL :=
  ⟨Or.inl rfl,
    (generate_perimeter_walls 5 5 .medium (rngOf []) 0 2 (Or.inl rfl)).1⟩

/-! C9: getRandomPath. -/

/-- The stepping loop of `getRandomPath` produces a chain of passable
neighbours of length at most the remaining steps. -/
theorem getRandomPathLoop_spec (rows cols : Nat) (g : Grid) (rng : RNG) :
    ∀ (n : Nat) (r c : Int) (k : Nat),
      List.Chain' (fun p q : Pos => q ∈ MazeUtils.getNeighbors rows cols g p.1 p.2)
        ((r, c) :: MazeUtils.getRandomPathLoop rows cols g rng n r c k) ∧
      (MazeUtils.getRandomPathLoop rows cols g rng n r c k).length ≤ n := by
  intro n
  induction n with
  | zero =>
    intro r c k
    exact ⟨List.chain'_singleton _, Nat.le_refl _⟩
  | succ m ih =>
    intro r c k
    simp only [MazeUtils.getRandomPathLoop]
    cases hn : MazeUtils.getNeighbors rows cols g r c with
    | nil => exact ⟨List.chain'_singleton _, by simp⟩
    | cons q0 rest =>
      have hqmem : (q0 :: rest).getD (rng k % (q0 :: rest).length) q0 ∈
          MazeUtils.getNeighbors rows cols g r c := by
        rw [hn]
        exact getD_mem _ _ _ (List.mem_cons_self _ _)
      have hrec := ih ((q0 :: rest).getD (rng k % (q0 :: rest).length) q0).1
        ((q0 :: rest).getD (rng k % (q0 :: rest).length) q0).2 (k + 1)
      constructor
      · exact List.chain'_cons.mpr ⟨hqmem, hrec.1⟩
      · simpa using Nat.succ_le_succ hrec.2

/-- C9 (amended): for every grid, in-bounds origin and `maxSteps >= 1`,
`getRandomPath` returns a sequence headed by the origin, in which every
subsequent entry is an in-bounds passable 4-neighbour of its
predecessor, of length at most `maxSteps + 1`.  (For `maxSteps = 0` the
source returns the empty sequence instead, see the counterexample.) -/
theorem getRandomPath_spec (rows cols : Nat) (g : Grid) (sR sC : Int) (steps : Nat)
    (rng : RNG) (k : Nat) (hin : inBoundsB rows cols sR sC = true) (hs : 1 ≤ steps) :
    (MazeUtils.getRandomPath rows cols g sR sC steps rng k).head? = some (sR, sC) ∧
    List.Chain' (fun p q : Pos => q ∈ MazeUtils.getNeighbors rows cols g p.1 p.2)
      (MazeUtils.getRandomPath rows cols g sR sC steps rng k) ∧
    (MazeUtils.getRandomPath rows cols g sR sC steps rng k).length ≤ steps + 1 := by
  have hnz : steps ≠ 0 := Nat.one_le_iff_ne_zero.mp hs
  have hbin : MazeUtils.isInBounds sR sC rows cols = true := hin
  simp only [MazeUtils.getRandomPath, hbin, if_neg hnz]
  have h := getRandomPathLoop_spec rows cols g rng steps sR sC k
  refine ⟨?_, ?_, ?_⟩
  · simp
  · exact h.1
  · simpa using Nat.succ_le_succ h.2

/-- Witness for `getRandomPath_spec` on `gridCorr3` from (1,2), 3 steps. -/
theorem getRandomPath_spec_witness :
    inBoundsB 5 5 1 2 = true ∧ 1 ≤ 3 ∧
    ((MazeUtils.getRandomPath 5 5 gridCorr3 1 2 3 (rngOf [0, 0, 0]) 0).head? =
      some (1, 2) ∧
    List.Chain' (fun p q : Pos => q ∈ MazeUtils.getNeighbors 5 5 gridCorr3 p.1 p.2)
      (MazeUtils.getRandomPath 5 5 gridCorr3 1 2 3 (rngOf [0, 0, 0]) 0) ∧
    (MazeUtils.getRandomPath 5 5 gridCorr3 1 2 3 (rngOf [0, 0, 0]) 0).length ≤ 3 + 1) :=
  ⟨by decide, by decide,
    getRandomPath_spec 5 5 gridCorr3 1 2 3 (rngOf [0, 0, 0]) 0 (by decide) (by decide)⟩

/-- C9 (counterexample): with `maxSteps = 0` (an allowed value under the
claim's "for every maxSteps"), `getRandomPath` returns the empty
sequence, which does not contain the origin, contradicting "always
includes origin as the first entry". -/
theorem getRandomPath_zero_steps_empty :
    MazeUtils.getRandomPath 5 5 gridCorr3 1 2 0 (rngOf []) 0 = [] ∧
    ((1 : Int), (2 : Int)) ∉ MazeUtils.getRandomPath 5 5 gridCorr3 1 2 0 (rngOf []) 0 :=
  ⟨rfl, by decide⟩

/-! Reachability helpers for building concrete Reach instances. -/

/-- Reachability is transitive. -/
theorem reach_trans {rows cols : Nat} {g : Grid} {a p b : Pos}
    (h1 : Reach rows cols g a p) (h2 : Reach rows cols g p b) :
    Reach rows cols g a b := by
  induction h2 with
  | refl => exact h1
  | step _ hq ih => exact Reach.step ih hq

/-- A concrete chain of passable-neighbour steps witnesses reachability
of its last element. -/
theorem reach_of_path {rows cols : Nat} {g : Grid} :
    ∀ (l : List Pos) (a b : Pos),
      chainOk rows cols g (a :: l) = true →
      (a :: l).getLast? = some b → Reach rows cols g a b := by
  intro l
  induction l with
  | nil =>
    intro a b _ hlast
    simp only [List.getLast?_singleton, Option.some.injEq] at hlast
    rw [← hlast]
    exact Reach.refl
  | cons q l' ih =>
    intro a b hchain hlast
    rw [chainOk, Bool.and_eq_true] at hchain
    have h1 : q ∈ passableNeighbors rows cols g a := of_decide_eq_true hchain.1
    rw [List.getLast?_cons_cons] at hlast
    exact reach_trans (Reach.step Reach.refl h1) (ih q b hchain.2 hlast)

/-! Stuck-state lemmas for the mazeGenerator.js A*.  Because
`openSet.delete(current)` never removes anything (reference equality
against a fresh array), once the first strict-minimum entry of the open
set is not the goal and its expansion leaves the state unchanged (or
only appends entries that never become the strict minimum), the loop
re-selects the same entry forever and exits via the iteration cap with
null. -/

/-- If the minimum scan selects a non-goal position whose expansion
leaves the A* state entirely unchanged, the loop spins until the
iteration cap and returns null, whatever the remaining fuel. -/
theorem astarLoop_stuck_const (rows cols : Nat) (g : Grid) (endR endC : Int)
    (st : MazeGen.AStarState) (cur : Pos) (f0 : Nat)
    (hscan : MazeGen.scanMinFScore st.fScore st.openSet = some (cur, f0))
    (hne : ¬(cur.1 = endR ∧ cur.2 = endC))
    (hexp : MazeGen.expandNeighbors rows cols g endR endC cur st = st) :
    ∀ fuel, MazeGen.astarLoop rows cols g endR endC fuel st = .noPath := by
  intro fuel
  induction fuel with
  | zero => rfl
  | succ n ih =>
    have hopen : ¬(st.openSet = []) := by
      intro h
      rw [MazeGen.scanMinFScore, h] at hscan
      exact absurd hscan (by simp)
    simp only [MazeGen.astarLoop]
    rw [if_neg hopen, hscan]
    simp only []
    rw [if_neg hne, hexp]
    exact ih

/-- Folding the minimum scan over copies of an entry whose f-value is
not strictly below the accumulator leaves the accumulator unchanged. -/
theorem scan_replicate_const (fS : Pos → Option Nat) (q : Pos) (f0 : Nat) (acc : Pos × Nat)
    (hfq : fS q = some f0) (hge : ¬ f0 < acc.2) :
    ∀ k, List.foldl (MazeGen.scanStep fS) (some acc) (List.replicate k q) = some acc := by
  intro k
  induction k with
  | zero => rfl
  | succ m ih =>
    rw [List.replicate_succ, List.foldl_cons]
    have hstep : MazeGen.scanStep fS (some acc) q = some acc := by
      rcases acc with ⟨p, m'⟩
      simp only [MazeGen.scanStep, hfq]
      rw [if_neg hge]
    rw [hstep]
    exact ih

/-- An `expandStep` whose neighbour fails the bounds-or-wall check is a
no-op. -/
theorem expandStep_skip (rows cols : Nat) (g : Grid) (eR eC : Int) (cur : Pos)
    (s : MazeGen.AStarState) (off : Int × Int)
    (h : ¬(MazeGen.isValidCell rows cols (cur.1 + off.1) (cur.2 + off.2) = true ∧
        g (cur.1 + off.1) (cur.2 + off.2) ≠ cellWALL)) :
    MazeGen.expandStep rows cols g eR eC cur s off = s := by
  simp only [MazeGen.expandStep]
  rw [if_neg h]

/-- An `expandStep` whose neighbour passes the check appends it and
overwrites its score/predecessor keys. -/
theorem expandStep_take (rows cols : Nat) (g : Grid) (eR eC : Int) (cur : Pos)
    (s : MazeGen.AStarState) (off : Int × Int)
    (h : MazeGen.isValidCell rows cols (cur.1 + off.1) (cur.2 + off.2) = true ∧
        g (cur.1 + off.1) (cur.2 + off.2) ≠ cellWALL) :
    MazeGen.expandStep rows cols g eR eC cur s off =
      { openSet := s.openSet ++ [(cur.1 + off.1, cur.2 + off.2)],
        gScore := fun p => if p = (cur.1 + off.1, cur.2 + off.2) then
            some ((s.gScore cur).getD 0 + 5) else s.gScore p,
        fScore := fun p => if p = (cur.1 + off.1, cur.2 + off.2) then
            some ((s.gScore cur).getD 0 + 5 +
              MazeGen.heuristic (cur.1 + off.1) (cur.2 + off.2) eR eC) else s.fScore p,
        cameFrom := fun p => if p = (cur.1 + off.1, cur.2 + off.2) then some cur
            else s.cameFrom p } := by
  simp only [MazeGen.expandStep]
  rw [if_pos h]

set_option maxRecDepth 8000 in
/-- Expansion of the stuck cell (1,1) on `gridVert` (goal (2,1)),
whatever the open set: only the downward neighbour (2,1) passes the
wall check; its key gets g = 5, f = 5 + 0 and predecessor (1,1)
rewritten, and one more copy of (2,1) is appended to the open set. -/
theorem vert_expand (os : List Pos) (gS fS : Pos → Option Nat) (cF : Pos → Option Pos)
    (hg : gS (1, 1) = some 0) :
    MazeGen.expandNeighbors 4 3 gridVert 2 1 (1, 1)
      { openSet := os, gScore := gS, fScore := fS, cameFrom := cF } =
    { openSet := os ++ [(2, 1)],
      gScore := fun p => if p = (2, 1) then some 5 else gS p,
      fScore := fun p => if p = (2, 1) then some 5 else fS p,
      cameFrom := fun p => if p = (2, 1) then some (1, 1) else cF p } := by
  rw [MazeGen.expandNeighbors,
    show directionOffsets = [(-1, 0), (1, 0), (0, -1), (0, 1)] from rfl]
  rw [List.foldl_cons, expandStep_skip 4 3 gridVert 2 1 (1, 1) _ _ (by decide)]
  rw [List.foldl_cons, expandStep_take 4 3 gridVert 2 1 (1, 1) _ _ (by decide)]
  rw [List.foldl_cons, expandStep_skip 4 3 gridVert 2 1 (1, 1) _ _ (by decide)]
  rw [List.foldl_cons, expandStep_skip 4 3 gridVert 2 1 (1, 1) _ _ (by decide)]
  rw [List.foldl_nil]
  simp only [MazeGen.AStarState.mk.injEq]
  refine ⟨rfl, ?_, ?_, rfl⟩
  · funext p
    show (if p = ((2 : Int), (1 : Int)) then some ((gS (1, 1)).getD 0 + 5) else gS p) = _
    rw [hg]
    rfl
  · funext p
    show (if p = ((2 : Int), (1 : Int)) then
        some ((gS (1, 1)).getD 0 + 5 + MazeGen.heuristic 2 1 2 1) else fS p) = _
    rw [hg]
    rfl

/-- On `gridVert` with goal (2,1): from any state whose open set is
(1,1) followed by copies of (2,1), with f-values 5 for both (equal, so
the strict minimum scan keeps the first-inserted (1,1) forever), the
loop spins to the cap and returns null. -/
theorem astarLoop_vert_stuck :
    ∀ (fuel k : Nat) (gS fS : Pos → Option Nat) (cF : Pos → Option Pos),
      gS (1, 1) = some 0 → fS (1, 1) = some 5 → fS (2, 1) = some 5 →
      MazeGen.astarLoop 4 3 gridVert 2 1 fuel
        { openSet := (1, 1) :: List.replicate k (2, 1),
          gScore := gS, fScore := fS, cameFrom := cF } = .noPath := by
  intro fuel
  induction fuel with
  | zero => intros; rfl
  | succ n ih =>
    intro k gS fS cF hg hf1 hf2
    have hscan : MazeGen.scanMinFScore fS ((1, 1) :: List.replicate k (2, 1)) =
        some ((1, 1), 5) := by
      rw [MazeGen.scanMinFScore, List.foldl_cons]
      have h0 : MazeGen.scanStep fS none (1, 1) = some ((1, 1), 5) := by
        simp only [MazeGen.scanStep, hf1]
      rw [h0]
      exact scan_replicate_const fS (2, 1) 5 ((1, 1), 5) hf2 (by decide) k
    simp only [MazeGen.astarLoop]
    rw [if_neg (by simp), hscan]
    simp only []
    rw [if_neg (by decide)]
    rw [vert_expand ((1, 1) :: List.replicate k (2, 1)) gS fS cF hg]
    rw [show ((1, 1) :: List.replicate k ((2 : Int), (1 : Int))) ++ [((2 : Int), (1 : Int))] =
      (1, 1) :: List.replicate (k + 1) (2, 1) by
        rw [List.cons_append, List.replicate_succ']]
    refine ih (k + 1) _ _ _ ?_ ?_ ?_
    · rw [if_neg (show ¬((1 : Int), (1 : Int)) = ((2 : Int), (1 : Int)) by decide)]
      exact hg
    · rw [if_neg (show ¬((1 : Int), (1 : Int)) = ((2 : Int), (1 : Int)) by decide)]
      exact hf1
    · rw [if_pos rfl]

/-! C4: A* versus BFS reachability (counterexample half). -/

/-- C4 (counterexample): on the 4 by 3 grid whose only passable cells
are (1,1) and (2,1) (vertically adjacent), the mazeGenerator.js
`findPath` from (1,1) to (2,1) returns null although the finish is
reachable in one BFS step: every iteration re-selects the start (its f
equals the goal's f and the broken `openSet.delete` never removes it),
so the loop spins to the 10000-iteration cap. -/
theorem mazeGen_astar_disagrees_with_bfs :
    MazeGen.findPath 4 3 gridVert 1 1 2 1 = .noPath ∧
    Reach 4 3 gridVert (1, 1) (2, 1) := by
  constructor
  · show MazeGen.astarLoop 4 3 gridVert 2 1 (9999 + 1) _ = _
    generalize 9999 = m
    simp only [MazeGen.astarLoop]
    rw [if_neg (by decide), (by decide :
      MazeGen.scanMinFScore
        (fun p => if p = ((1 : Int), (1 : Int)) then some (MazeGen.heuristic 1 1 2 1) else none)
        [(1, 1)] = some ((1, 1), 5))]
    simp only []
    rw [if_neg (by decide)]
    rw [vert_expand [(1, 1)]
      (fun p => if p = ((1 : Int), (1 : Int)) then some 0 else none)
      (fun p => if p = ((1 : Int), (1 : Int)) then some (MazeGen.heuristic 1 1 2 1) else none)
      (fun _ => none) (by decide)]
    rw [show ([((1 : Int), (1 : Int))] ++ [((2 : Int), (1 : Int))]) =
      (1, 1) :: List.replicate 1 (2, 1) from rfl]
    exact astarLoop_vert_stuck _ 1 _ _ _ (by decide) (by decide) (by decide)
  · exact Reach.step Reach.refl (by decide)

/-! C5: the straight-corridor scenario. -/

/-- C5 (failing input): on the 3 by 12 grid whose row 1 is the corridor
(1,1)..(1,10), `findPath((1,1),(1,10))` does not return the 10-cell
sequence: the search does pop the finish on iteration 10, but íts
`cameFrom` map was overwritten into a cycle between (1,8) and (1,9)
(every expansion rewrites both side neighbours because the
reference-keyed open-set membership test is always false), so
`reconstructPath` never terminates - the call hangs.  The corridor is
genuinely traversable, witnessed by the explicit chain. -/
theorem findPath_corridor_hangs :
    MazeGen.findPath 3 12 gridCorridor 1 1 1 10 = .diverge ∧
    Reach 3 12 gridCorridor (1, 1) (1, 10) := by
  constructor
  · rfl
  · exact reach_of_path
      [(1, 2), (1, 3), (1, 4), (1, 5), (1, 6), (1, 7), (1, 8), (1, 9), (1, 10)]
      (1, 1) (1, 10) (by decide) (by decide)

/-! C6: unreachable finish (counterexample half). -/

/-- C6 (counterexample): on `gridIso` the finish (3,3) is isolated from
the start (1,1), and mazeGenerator.js `findPath` returns null (the
model's `noPath`), not an empty sequence of positions: the start has no
passable neighbour, so every iteration re-selects it with the state
unchanged until the 10000-iteration cap expires and the source executes
`return null`. -/
theorem findPath_unreachable_null :
    MazeGen.findPath 5 5 gridIso 1 1 3 3 = .noPath ∧
    (∀ l : List Pos, MazeGen.FPResult.noPath ≠ MazeGen.FPResult.path l) ∧
    ¬ Reach 5 5 gridIso (1, 1) (3, 3) := by
  refine ⟨?_, ?_, ?_⟩
  · show MazeGen.astarLoop 5 5 gridIso 3 3 MazeGen.maxIterations _ = _
    exact astarLoop_stuck_const 5 5 gridIso 3 3 _ (1, 1) (MazeGen.heuristic 1 1 3 3)
      (by decide) (by decide) rfl MazeGen.maxIterations
  · intro l h
    cases h
  · intro h
    have hmem := reach_subset_closed [((1 : Int), (1 : Int))] (by decide) (by decide) h
    exact absurd hmem (by decide)

/-! C1: a failing generate run. -/

/-- C1 (failing input): a concrete valid call on which mazeGenerator.js
`generate` never returns a MazeResult.  With rows 5, cols 6 (both at
least 5), easy difficulty and the stream `rngRun56`, the carve reaches
the last column (even cols allow odd columns up to cols-1), START is
(1,1), the BFS farthest point - hence FINISH - is (1,5), the difficulty
pass opens (1,4) so that start and finish are connected (third
conjunct), yet `ensurePathExists`' A* hangs: its `cameFrom` map is
overwritten into a cycle between (1,3) and (1,4), so `reconstructPath`
loops forever and the source call never terminates. -/
theorem generate_run56_hangs :
    MazeGen.generate 5 6 .easy rngRun56 = .error .nonTermination ∧
    (MazeGen.stagePlaced 5 6 rngRun56).2 = ((1, 1), (1, 5)) ∧
    Reach 5 6 (MazeGen.stageAdjusted 5 6 .easy rngRun56) (1, 1) (1, 5) := by
  refine ⟨rfl, rfl, ?_⟩
  exact reach_of_path [(1, 2), (1, 3), (1, 4), (1, 5)] (1, 1) (1, 5) (by decide) (by decide)

/-! Open-set membership lemmas for the mazeGenerator.js A* loop. -/

/-- One scan step either keeps the accumulator or selects the scanned
position. -/
theorem scanStep_cases (fS : Pos → Option Nat) (acc : Option (Pos × Nat)) (x : Pos) :
    MazeGen.scanStep fS acc x = acc ∨ ∃ f, MazeGen.scanStep fS acc x = some (x, f) := by
  unfold MazeGen.scanStep
  cases hfx : fS x with
  | none => exact Or.inl rfl
  | some f =>
    cases acc with
    | none => exact Or.inr ⟨f, rfl⟩
    | some qm =>
      rcases qm with ⟨q, m⟩
      by_cases hlt : f < m
      · refine Or.inr ⟨f, ?_⟩
        show (if f < m then some (x, f) else some (q, m)) = some (x, f)
        rw [if_pos hlt]
      · refine Or.inl ?_
        show (if f < m then some (x, f) else some (q, m)) = some (q, m)
        rw [if_neg hlt]

/-- The minimum scan returns its accumulator or a member of the list. -/
theorem scan_foldl_mem (fS : Pos → Option Nat) :
    ∀ (l : List Pos) (acc : Option (Pos × Nat)) (pr : Pos × Nat),
      List.foldl (MazeGen.scanStep fS) acc l = some pr →
      acc = some pr ∨ pr.1 ∈ l := by
  intro l
  induction l with
  | nil => intro acc pr h; exact Or.inl h
  | cons x l ih =>
    intro acc pr h
    rw [List.foldl_cons] at h
    rcases ih _ _ h with h' | h'
    · rcases scanStep_cases fS acc x with hc | ⟨f, hc⟩
      · rw [hc] at h'
        exact Or.inl h'
      · rw [hc] at h'
        have hx : x = pr.1 := by
          cases h'
          rfl
        exact Or.inr (hx ▸ List.mem_cons_self x l)
    · exact Or.inr (List.mem_cons_of_mem x h')

/-- The position the minimum scan selects is in the open set. -/
theorem scanMin_mem {fS : Pos → Option Nat} {l : List Pos} {pr : Pos × Nat}
    (h : MazeGen.scanMinFScore fS l = some pr) : pr.1 ∈ l := by
  rcases scan_foldl_mem fS l none pr h with h' | h'
  · cases h'
  · exact h'

/-- Every position in the open set after an expansion fold was already
open or is a neighbour of the expanded cell passing the checks. -/
theorem expand_foldl_mem (rows cols : Nat) (g : Grid) (eR eC : Int) (cur : Pos) :
    ∀ (offs : List (Int × Int)) (st : MazeGen.AStarState) (p : Pos),
      p ∈ (List.foldl (MazeGen.expandStep rows cols g eR eC cur) st offs).openSet →
      p ∈ st.openSet ∨ ∃ off ∈ offs,
        (MazeGen.isValidCell rows cols (cur.1 + off.1) (cur.2 + off.2) = true ∧
          g (cur.1 + off.1) (cur.2 + off.2) ≠ cellWALL) ∧
        p = (cur.1 + off.1, cur.2 + off.2) := by
  intro offs
  induction offs with
  | nil => intro st p h; exact Or.inl h
  | cons o os ih =>
    intro st p h
    rw [List.foldl_cons] at h
    rcases ih _ _ h with h' | h'
    · by_cases hc : MazeGen.isValidCell rows cols (cur.1 + o.1) (cur.2 + o.2) = true ∧
          g (cur.1 + o.1) (cur.2 + o.2) ≠ cellWALL
      · rw [expandStep_take rows cols g eR eC cur st o hc] at h'
        rcases List.mem_append.mp h' with h'' | h''
        · exact Or.inl h''
        · have : p = (cur.1 + o.1, cur.2 + o.2) := by
            simpa using h''
          exact Or.inr ⟨o, List.mem_cons_self o os, hc, this⟩
      · rw [expandStep_skip rows cols g eR eC cur st o hc] at h'
        exact Or.inl h'
    · rcases h' with ⟨off, hmem, hcond, hp⟩
      exact Or.inr ⟨off, List.mem_cons_of_mem o hmem, hcond, hp⟩

/-- Positions added by `expandNeighbors` are passable neighbours of the
expanded cell. -/
theorem expandNeighbors_openSet_mem (rows cols : Nat) (g : Grid) (eR eC : Int)
    (cur : Pos) (st : MazeGen.AStarState) (p : Pos)
    (h : p ∈ (MazeGen.expandNeighbors rows cols g eR eC cur st).openSet) :
    p ∈ st.openSet ∨ p ∈ passableNeighbors rows cols g cur := by
  rcases expand_foldl_mem rows cols g eR eC cur directionOffsets st p h with h' | h'
  · exact Or.inl h'
  · rcases h' with ⟨off, hmem, hcond, hp⟩
    refine Or.inr (List.mem_filterMap.mpr ⟨off, hmem, ?_⟩)
    show (if MazeGen.isValidCell rows cols (cur.1 + off.1) (cur.2 + off.2) = true ∧
        g (cur.1 + off.1) (cur.2 + off.2) ≠ cellWALL then
        some ((cur.1 + off.1, cur.2 + off.2) : Pos) else none) = some p
    rw [if_pos hcond, hp]

/-- The mazeGenerator.js A* never reports a path (nor diverges in the
reconstruction, which only runs after the goal is popped) when the goal
is not BFS-reachable from the start: every open-set entry stays
reachable, so the goal is never selected and the loop exits with null. -/
theorem astarLoop_unreachable (rows cols : Nat) (g : Grid) (a : Pos) (endR endC : Int)
    (hnr : ¬ Reach rows cols g a (endR, endC)) :
    ∀ (fuel : Nat) (st : MazeGen.AStarState),
      (∀ p ∈ st.openSet, Reach rows cols g a p) →
      MazeGen.astarLoop rows cols g endR endC fuel st = .noPath := by
  intro fuel
  induction fuel with
  | zero => intro st _; rfl
  | succ n ih =>
    intro st hinv
    by_cases hopen : st.openSet = []
    · simp only [MazeGen.astarLoop]
      rw [if_pos hopen]
    · simp only [MazeGen.astarLoop]
      rw [if_neg hopen]
      cases hscan : MazeGen.scanMinFScore st.fScore st.openSet with
      | none => rfl
      | some pr =>
        rcases pr with ⟨cur, f0⟩
        simp only []
        by_cases hgoal : cur.1 = endR ∧ cur.2 = endC
        · exfalso
          apply hnr
          have hc := hinv cur (scanMin_mem hscan)
          have hce : cur = (endR, endC) := by
            rcases cur with ⟨r, c⟩
            have h1 : r = endR := hgoal.1
            have h2 : c = endC := hgoal.2
            rw [h1, h2]
          rw [← hce]
          exact hc
        · rw [if_neg hgoal]
          apply ih
          intro p hp
          rcases expandNeighbors_openSet_mem rows cols g endR endC cur st p hp with h | h
          · exact hinv p h
          · exact Reach.step (hinv cur (scanMin_mem hscan)) h

/-! Soundness of the maze-utils.js A*. -/

/-- The maze-utils neighbour enumeration coincides with the passable
neighbour list. -/
theorem getNeighbors_eq_passable (rows cols : Nat) (g : Grid) (p : Pos) :
    MazeUtils.getNeighbors rows cols g p.1 p.2 = passableNeighbors rows cols g p := rfl

/-- A node produced by `processNeighbor` was already open or sits at the
processed neighbour position. -/
theorem processNeighbor_mem (cur : MazeUtils.Node) (fR fC : Int) (closed : List Pos)
    (os : List MazeUtils.Node) (q : Pos) (n : MazeUtils.Node)
    (h : n ∈ MazeUtils.processNeighbor cur fR fC closed os q) :
    n ∈ os ∨ n.pos = q := by
  unfold MazeUtils.processNeighbor at h
  by_cases hq : q ∈ closed
  · rw [if_pos hq] at h
    exact Or.inl h
  · rw [if_neg hq] at h
    split at h
    next ex hfind =>
      split at h
      · rcases List.mem_map.mp h with ⟨m, hm, hmap⟩
        by_cases hmq : m.pos == q
        · rw [if_pos hmq] at hmap
          right
          rw [← hmap]
          rfl
        · rw [if_neg hmq] at hmap
          exact Or.inl (hmap ▸ hm)
      · exact Or.inl h
    next hfind =>
      rcases List.mem_append.mp h with h' | h'
      · exact Or.inl h'
      · right
        have hn : n = MazeUtils.Node.mk q (cur.g + 1)
            (cur.g + 1 + MazeUtils.heuristic q.1 q.2 fR fC) (some cur) := by
          simpa using h'
        rw [hn]
        rfl

/-- Fold version of `processNeighbor_mem`. -/
theorem fold_processNeighbor_mem (cur : MazeUtils.Node) (fR fC : Int) (closed : List Pos) :
    ∀ (nbrs : List Pos) (os : List MazeUtils.Node) (n : MazeUtils.Node),
      n ∈ List.foldl (MazeUtils.processNeighbor cur fR fC closed) os nbrs →
      n ∈ os ∨ n.pos ∈ nbrs := by
  intro nbrs
  induction nbrs with
  | nil => intro os n h; exact Or.inl h
  | cons q qs ih =>
    intro os n h
    rw [List.foldl_cons] at h
    rcases ih _ _ h with h' | h'
    · rcases processNeighbor_mem cur fR fC closed os q n h' with h'' | h''
      · exact Or.inl h''
      · exact Or.inr (h'' ▸ List.mem_cons_self q qs)
    · exact Or.inr (List.mem_cons_of_mem q h')

/-- If the maze-utils A* loop yields a non-empty path, the finish is
BFS-reachable from the start: every open node's position stays
reachable, and a non-empty result only arises by popping the finish. -/
theorem muAStarLoop_sound (rows cols : Nat) (g : Grid) (sR sC fR fC : Int) :
    ∀ (fuel : Nat) (os : List MazeUtils.Node) (closed : List Pos),
      (∀ n ∈ os, Reach rows cols g (sR, sC) n.pos) →
      MazeUtils.muAStarLoop rows cols g sR sC fR fC fuel os closed ≠ [] →
      Reach rows cols g (sR, sC) (fR, fC) := by
  intro fuel
  induction fuel with
  | zero => intro os closed _ h; exact absurd rfl h
  | succ m ih =>
    intro os closed hinv hne
    cases os with
    | nil => exact absurd rfl hne
    | cons n0 rest =>
      simp only [MazeUtils.muAStarLoop] at hne
      by_cases hcur : ((n0 :: rest).getD (MazeUtils.lowestIndex (n0 :: rest)) n0).pos = (fR, fC)
      · have hmem := getD_mem (n0 :: rest) (MazeUtils.lowestIndex (n0 :: rest)) n0
          (List.mem_cons_self n0 rest)
        have := hinv _ hmem
        rw [hcur] at this
        exact this
      · rw [if_neg hcur] at hne
        refine ih _ _ ?_ hne
        intro n hn
        rcases fold_processNeighbor_mem _ _ _ _ _ _ _ hn with h' | h'
        · exact hinv n ((List.eraseIdx_sublist (n0 :: rest)
            (MazeUtils.lowestIndex (n0 :: rest))).mem h')
        · have hcurR := hinv _ (getD_mem (n0 :: rest) (MazeUtils.lowestIndex (n0 :: rest)) n0
            (List.mem_cons_self n0 rest))
          rw [getNeighbors_eq_passable] at h'
          have := Reach.step hcurR h'
          rcases n with ⟨np, ng, nf, npar⟩
          exact this

/-- Non-empty results of maze-utils `findPath` certify reachability. -/
theorem mu_findPath_sound (rows cols : Nat) (g : Grid) (sR sC fR fC : Int)
    (h : MazeUtils.findPath rows cols g sR sC fR fC ≠ []) :
    Reach rows cols g (sR, sC) (fR, fC) := by
  refine muAStarLoop_sound rows cols g sR sC fR fC (rows * cols * 2) _ [] ?_ h
  intro n hn
  have : n = MazeUtils.Node.mk (sR, sC) 0 (MazeUtils.heuristic sR sC fR fC) none := by
    simpa using hn
  rw [this]
  exact Reach.refl

/-! C6: unreachable finish (amended theorem). -/

/-- C6 (amended): when the finish is not reachable from the start,
mazeGenerator.js `findPath` returns null (the model's `noPath` - never
an empty sequence, an exception or a hang), while the maze-utils.js
`findPath` returns the empty sequence. -/
theorem findPath_unreachable_results (rows cols : Nat) (g : Grid) (sR sC eR eC : Int)
    (hnr : ¬ Reach rows cols g (sR, sC) (eR, eC)) :
    MazeGen.findPath rows cols g sR sC eR eC = .noPath ∧
    MazeUtils.findPath rows cols g sR sC eR eC = [] := by
  constructor
  · show MazeGen.astarLoop rows cols g eR eC MazeGen.maxIterations _ = _
    apply astarLoop_unreachable rows cols g (sR, sC) eR eC hnr
    intro p hp
    have : p = (sR, sC) := by simpa using hp
    rw [this]
    exact Reach.refl
  · by_contra hne
    exact hnr (mu_findPath_sound rows cols g sR sC eR eC hne)

/-- Witness for `findPath_unreachable_results` on `gridIso`. -/
theorem findPath_unreachable_results_witness :
    (¬ Reach 5 5 gridIso (1, 1) (3, 3)) ∧
    (MazeGen.findPath 5 5 gridIso 1 1 3 3 = .noPath ∧
      MazeUtils.findPath 5 5 gridIso 1 1 3 3 = []) := by
  have hnr : ¬ Reach 5 5 gridIso (1, 1) (3, 3) := by
    intro h
    have hmem := reach_subset_closed [((1 : Int), (1 : Int))] (by decide) (by decide) h
    exact absurd hmem (by decide)
  exact ⟨hnr, findPath_unreachable_results 5 5 gridIso 1 1 3 3 hnr⟩

/-! C2: the wall-sealing pass and connectivity. -/

/-- The attempts loop of maze-utils `addRandomWalls` preserves
connectivity between start and finish: a tentative wall is kept only
when `findPath` still finds a path on the walled grid (sound by
`mu_findPath_sound`), and reverted otherwise. -/
theorem mu_addRandomWallsLoop_preserves (rows cols : Nat) (rng : RNG)
    (sR sC fR fC : Int) :
    ∀ (att wr : Nat) (g : Grid) (k : Nat),
      Reach rows cols g (sR, sC) (fR, fC) →
      Reach rows cols
        ((MazeUtils.addRandomWallsLoop rows cols rng sR sC fR fC att wr g k).1)
        (sR, sC) (fR, fC) := by
  intro att
  induction att with
  | zero =>
    intro wr g k h
    cases wr with
    | zero => exact h
    | succ w => exact h
  | succ a ih =>
    intro wr g k h
    cases wr with
    | zero => exact h
    | succ w =>
      simp only [MazeUtils.addRandomWallsLoop]
      by_cases hskip : g (1 + (rng k % (rows - 2) : Nat) : Int)
            (1 + (rng (k + 1) % (cols - 2) : Nat) : Int) ≠ cellEMPTY ∨
          ((1 + (rng k % (rows - 2) : Nat) : Int) = sR ∧
            (1 + (rng (k + 1) % (cols - 2) : Nat) : Int) = sC) ∨
          ((1 + (rng k % (rows - 2) : Nat) : Int) = fR ∧
            (1 + (rng (k + 1) % (cols - 2) : Nat) : Int) = fC)
      · rw [if_pos hskip]
        exact ih (w + 1) g (k + 2) h
      · rw [if_neg hskip]
        by_cases hpath : MazeUtils.findPath rows cols
            (gridSet g ((1 + (rng k % (rows - 2) : Nat) : Int),
              (1 + (rng (k + 1) % (cols - 2) : Nat) : Int)) cellWALL) sR sC fR fC = []
        · rw [if_pos hpath]
          exact ih (w + 1) g (k + 2) h
        · rw [if_neg hpath]
          exact ih w _ (k + 2) (mu_findPath_sound rows cols _ sR sC fR fC hpath)

/-- C2 (amended, maze-utils half): the maze-utils.js harder-tier
wall-sealing pass preserves the existence of a passable path between
start and finish - any tentatively sealed wall on which its path check
fails is reverted before the pass continues. -/
theorem mu_addRandomWalls_preserves_connectivity (rows cols : Nat) (rng : RNG)
    (g : Grid) (count : Nat) (sR sC fR fC : Int) (k : Nat)
    (h : Reach rows cols g (sR, sC) (fR, fC)) :
    Reach rows cols
      ((MazeUtils.addRandomWalls rows cols rng g count sR sC fR fC k).1)
      (sR, sC) (fR, fC) :=
  mu_addRandomWallsLoop_preserves rows cols rng sR sC fR fC (count * 3) count g k h

/-- Witness for `mu_addRandomWalls_preserves_connectivity` on
`gridCorr3` (the pass tries to seal (1,2) first and must revert it). -/
theorem mu_addRandomWalls_preserves_connectivity_witness :
    Reach 5 5 gridCorr3 (1, 1) (1, 3) ∧
    Reach 5 5 ((MazeUtils.addRandomWalls 5 5 rngPick12 gridCorr3 7 1 1 1 3 0).1)
      (1, 1) (1, 3) := by
  have h : Reach 5 5 gridCorr3 (1, 1) (1, 3) :=
    reach_of_path [(1, 2), (1, 3)] (1, 1) (1, 3) (by decide) (by decide)
  exact ⟨h, mu_addRandomWalls_preserves_connectivity 5 5 rngPick12 gridCorr3 7 1 1 1 3 0 h⟩

/-- C2 (counterexample): the mazeGenerator.js wall-sealing pass (which
runs for the harder tiers with ratios 0.3/0.4) performs no connectivity
check at all: on `gridCorr3` (START (1,1), corridor (1,2), FINISH
(1,3)), with the hard-tier wall count and a stream whose first pick is
(1,2), it seals the only corridor cell and leaves start and finish
disconnected. -/
theorem mazeGen_addRandomWalls_disconnects :
    Reach 5 5 gridCorr3 (1, 1) (1, 3) ∧
    gridCorr3Walled 1 2 = cellWALL ∧
    ¬ Reach 5 5 gridCorr3Walled (1, 1) (1, 3) := by
  refine ⟨reach_of_path [(1, 2), (1, 3)] (1, 1) (1, 3) (by decide) (by decide),
    by decide, ?_⟩
  intro h
  have hmem := reach_subset_closed [((1 : Int), (1 : Int))] (by decide) (by decide) h
  exact absurd hmem (by decide)

/-! C10: fixed start placement.  The development below tracks the
pipeline: carving writes only EMPTY, the BFS farthest point differs
from the start (the first carve step leaves a passable neighbour of
(1,1)), the difficulty passes never overwrite a START cell, and the
boundary sealing does not touch the interior cell (1,1). -/

/-- Bounds check from arithmetic facts. -/
theorem inBoundsB_of (rows cols : Nat) (r c : Int)
    (h : 0 ≤ r ∧ r < (rows : Int) ∧ 0 ≤ c ∧ c < (cols : Int)) :
    inBoundsB rows cols r c = true := by
  simp only [inBoundsB, Bool.and_eq_true, decide_eq_true_eq]
  exact ⟨⟨⟨h.1, h.2.1⟩, h.2.2.1⟩, h.2.2.2⟩

/-- `createPath` leaves a cell alone or makes it EMPTY. -/
theorem createPath_cases (g : Grid) (a b : Pos) (r c : Int) :
    MazeGen.createPath g a b r c = g r c ∨ MazeGen.createPath g a b r c = cellEMPTY := by
  unfold MazeGen.createPath gridSet
  by_cases h1 : r = b.1 ∧ c = b.2
  · rw [if_pos h1]
    exact Or.inr rfl
  · rw [if_neg h1]
    by_cases h2 : r = (a.1 + (b.1 - a.1) / 2, a.2 + (b.2 - a.2) / 2).1 ∧
        c = (a.1 + (b.1 - a.1) / 2, a.2 + (b.2 - a.2) / 2).2
    · rw [if_pos h2]
      exact Or.inr rfl
    · rw [if_neg h2]
      exact Or.inl rfl

/-- The carve loop leaves a cell alone or makes it EMPTY. -/
theorem carveLoop_cases (rows cols : Nat) (rng : RNG) :
    ∀ (fuel : Nat) (stack : List Pos) (g : Grid) (k : Nat) (r c : Int),
      (MazeGen.carveLoop rows cols rng fuel stack g k).1 r c = g r c ∨
      (MazeGen.carveLoop rows cols rng fuel stack g k).1 r c = cellEMPTY := by
  intro fuel
  induction fuel with
  | zero => intro stack g k r c; exact Or.inl rfl
  | succ n ih =>
    intro stack g k r c
    cases stack with
    | nil => exact Or.inl rfl
    | cons cur rest =>
      simp only [MazeGen.carveLoop]
      by_cases hn : (MazeGen.getUnvisitedNeighbors rows cols g cur.1 cur.2).length = 0
      · rw [if_pos hn]
        exact ih rest g k r c
      · rw [if_neg hn]
        rcases ih (((MazeGen.getUnvisitedNeighbors rows cols g cur.1 cur.2).getD
            (rng k % (MazeGen.getUnvisitedNeighbors rows cols g cur.1 cur.2).length)
            (0, 0)) :: cur :: rest)
            (MazeGen.createPath g cur
              ((MazeGen.getUnvisitedNeighbors rows cols g cur.1 cur.2).getD
                (rng k % (MazeGen.getUnvisitedNeighbors rows cols g cur.1 cur.2).length)
                (0, 0)))
            (k + 1) r c with h | h
        · rw [h]
          exact createPath_cases g cur _ r c
        · exact Or.inr h

/-- For dimensions at least 5, the initial cell (1,1) has exactly the
two unvisited 2-step neighbours (3,1) and (1,3) on the all-wall grid
with (1,1) cleared. -/
theorem getUnvisited_initial (rows cols : Nat) (hr : 5 ≤ rows) (hc : 5 ≤ cols) :
    MazeGen.getUnvisitedNeighbors rows cols (gridSet allWalls (1, 1) cellEMPTY) 1 1 =
      [(3, 1), (1, 3)] := by
  have h31 : MazeGen.isValidCell rows cols 3 1 = true := by
    apply inBoundsB_of
    refine ⟨by norm_num, ?_, by norm_num, ?_⟩ <;> omega
  have h13 : MazeGen.isValidCell rows cols 1 3 = true := by
    apply inBoundsB_of
    refine ⟨by norm_num, ?_, by norm_num, ?_⟩ <;> omega
  have hup : MazeGen.isValidCell rows cols (-1) 1 = true → False := by
    intro h
    simp only [MazeGen.isValidCell, inBoundsB, Bool.and_eq_true, decide_eq_true_eq] at h
    omega
  have hleft : MazeGen.isValidCell rows cols 1 (-1) = true → False := by
    intro h
    simp only [MazeGen.isValidCell, inBoundsB, Bool.and_eq_true, decide_eq_true_eq] at h
    omega
  rw [MazeGen.getUnvisitedNeighbors,
    show directionOffsets = [(-1, 0), (1, 0), (0, -1), (0, 1)] from rfl]
  simp only [List.filterMap_cons, List.filterMap_nil]
  rw [if_neg (show ¬(MazeGen.isValidCell rows cols (1 + -1 * 2) (1 + 0 * 2) = true ∧
      gridSet allWalls (1, 1) cellEMPTY (1 + -1 * 2) (1 + 0 * 2) = cellWALL) by
    intro h
    exact hup h.1)]
  rw [if_pos (show MazeGen.isValidCell rows cols (1 + 1 * 2) (1 + 0 * 2) = true ∧
      gridSet allWalls (1, 1) cellEMPTY (1 + 1 * 2) (1 + 0 * 2) = cellWALL from
    ⟨h31, by decide⟩)]
  rw [if_neg (show ¬(MazeGen.isValidCell rows cols (1 + 0 * 2) (1 + -1 * 2) = true ∧
      gridSet allWalls (1, 1) cellEMPTY (1 + 0 * 2) (1 + -1 * 2) = cellWALL) by
    intro h
    exact hleft h.1)]
  rw [if_pos (show MazeGen.isValidCell rows cols (1 + 0 * 2) (1 + 1 * 2) = true ∧
      gridSet allWalls (1, 1) cellEMPTY (1 + 0 * 2) (1 + 1 * 2) = cellWALL from
    ⟨h13, by decide⟩)]
  rfl

/-- The carved grid has (2,1) or (1,2) EMPTY (the first carve step
clears one of the two midpoints, and carving never un-clears). -/
theorem carveOut_neighbor (rows cols : Nat) (rng : RNG) (hr : 5 ≤ rows) (hc : 5 ≤ cols) :
    (MazeGen.carveOut rows cols rng).1 2 1 = cellEMPTY ∨
    (MazeGen.carveOut rows cols rng).1 1 2 = cellEMPTY := by
  show (MazeGen.carveLoop rows cols rng (2 * rows * cols + 2) [(1, 1)]
      (gridSet allWalls (1, 1) cellEMPTY) 0).1 2 1 = cellEMPTY ∨
    (MazeGen.carveLoop rows cols rng (2 * rows * cols + 2) [(1, 1)]
      (gridSet allWalls (1, 1) cellEMPTY) 0).1 1 2 = cellEMPTY
  rw [show 2 * rows * cols + 2 = (2 * rows * cols + 1) + 1 from rfl]
  generalize 2 * rows * cols + 1 = m
  simp only [MazeGen.carveLoop]
  rw [getUnvisited_initial rows cols hr hc]
  rw [if_neg (show ¬([((3 : Int), (1 : Int)), (1, 3)].length = 0) by decide)]
  have hmod : rng 0 % [((3 : Int), (1 : Int)), (1, 3)].length = 0 ∨
      rng 0 % [((3 : Int), (1 : Int)), (1, 3)].length = 1 := by
    have : rng 0 % 2 < 2 := Nat.mod_lt _ (by norm_num)
    show rng 0 % 2 = 0 ∨ rng 0 % 2 = 1
    omega
  rcases hmod with hm | hm
  · rw [hm]
    rw [show [((3 : Int), (1 : Int)), ((1 : Int), (3 : Int))].getD 0 ((0 : Int), (0 : Int)) =
      ((3 : Int), (1 : Int)) from rfl]
    left
    rcases carveLoop_cases rows cols rng m [(3, 1), (1, 1)]
      (MazeGen.createPath (gridSet allWalls (1, 1) cellEMPTY) (1, 1) (3, 1))
      (0 + 1) 2 1 with h | h
    · rw [h]
      decide
    · exact h
  · rw [hm]
    rw [show [((3 : Int), (1 : Int)), ((1 : Int), (3 : Int))].getD 1 ((0 : Int), (0 : Int)) =
      ((1 : Int), (3 : Int)) from rfl]
    right
    rcases carveLoop_cases rows cols rng m [(1, 3), (1, 1)]
      (MazeGen.createPath (gridSet allWalls (1, 1) cellEMPTY) (1, 1) (1, 3))
      (0 + 1) 1 2 with h | h
    · rw [h]
      decide
    · exact h

/-- One BFS neighbour examination never decreases the farthest
distance. -/
theorem bfsStep_mono (rows cols : Nat) (g : Grid) (d : Nat) (cur : Pos)
    (s : MazeGen.BfsState) (off : Int × Int) :
    s.maxDist ≤ (MazeGen.bfsStep rows cols g d cur s off).maxDist := by
  unfold MazeGen.bfsStep
  by_cases h1 : MazeGen.isValidCell rows cols (cur.1 + off.1) (cur.2 + off.2) = true ∧
      g (cur.1 + off.1) (cur.2 + off.2) ≠ cellWALL ∧
      s.dist (cur.1 + off.1, cur.2 + off.2) = none
  · rw [if_pos h1]
    by_cases h2 : s.maxDist < d + 1
    · rw [if_pos h2]
      exact Nat.le_of_lt h2
    · rw [if_neg h2]
  · rw [if_neg h1]

/-- A BFS neighbour examination never overwrites an already-set
distance (it only writes cells whose distance is still Infinity). -/
theorem bfsStep_dist_some (rows cols : Nat) (g : Grid) (d : Nat) (cur : Pos)
    (s : MazeGen.BfsState) (off : Int × Int) (p : Pos) (v : Nat)
    (hp : s.dist p = some v) :
    (MazeGen.bfsStep rows cols g d cur s off).dist p = some v := by
  unfold MazeGen.bfsStep
  by_cases h1 : MazeGen.isValidCell rows cols (cur.1 + off.1) (cur.2 + off.2) = true ∧
      g (cur.1 + off.1) (cur.2 + off.2) ≠ cellWALL ∧
      s.dist (cur.1 + off.1, cur.2 + off.2) = none
  · have hne : p ≠ (cur.1 + off.1, cur.2 + off.2) := by
      intro he
      rw [he, h1.2.2] at hp
      cases hp
    rw [if_pos h1]
    by_cases h2 : s.maxDist < d + 1
    · rw [if_pos h2]
      show (if p = (cur.1 + off.1, cur.2 + off.2) then some (d + 1) else s.dist p) = some v
      rw [if_neg hne]
      exact hp
    · rw [if_neg h2]
      show (if p = (cur.1 + off.1, cur.2 + off.2) then some (d + 1) else s.dist p) = some v
      rw [if_neg hne]
      exact hp
  · rw [if_neg h1]
    exact hp

/-- The farthest point's recorded distance stays in sync through a BFS
neighbour examination. -/
theorem bfsStep_tracked (rows cols : Nat) (g : Grid) (d : Nat) (cur : Pos)
    (s : MazeGen.BfsState) (off : Int × Int)
    (ht : s.dist s.maxPoint = some s.maxDist) :
    (MazeGen.bfsStep rows cols g d cur s off).dist
      (MazeGen.bfsStep rows cols g d cur s off).maxPoint =
    some (MazeGen.bfsStep rows cols g d cur s off).maxDist := by
  unfold MazeGen.bfsStep
  by_cases h1 : MazeGen.isValidCell rows cols (cur.1 + off.1) (cur.2 + off.2) = true ∧
      g (cur.1 + off.1) (cur.2 + off.2) ≠ cellWALL ∧
      s.dist (cur.1 + off.1, cur.2 + off.2) = none
  · have hne : s.maxPoint ≠ (cur.1 + off.1, cur.2 + off.2) := by
      intro he
      rw [he, h1.2.2] at ht
      cases ht
    rw [if_pos h1]
    by_cases h2 : s.maxDist < d + 1
    · rw [if_pos h2]
      show (if (cur.1 + off.1, cur.2 + off.2) = (cur.1 + off.1, cur.2 + off.2) then
        some (d + 1) else s.dist (cur.1 + off.1, cur.2 + off.2)) = some (d + 1)
      rw [if_pos rfl]
    · rw [if_neg h2]
      show (if s.maxPoint = (cur.1 + off.1, cur.2 + off.2) then some (d + 1)
        else s.dist s.maxPoint) = some s.maxDist
      rw [if_neg hne]
      exact ht
  · rw [if_neg h1]
    exact ht

/-- A BFS neighbour examination whose checks all pass leaves the
farthest distance at least 1. -/
theorem bfsStep_takes (rows cols : Nat) (g : Grid) (d : Nat) (cur : Pos)
    (s : MazeGen.BfsState) (off : Int × Int)
    (h1 : MazeGen.isValidCell rows cols (cur.1 + off.1) (cur.2 + off.2) = true ∧
      g (cur.1 + off.1) (cur.2 + off.2) ≠ cellWALL ∧
      s.dist (cur.1 + off.1, cur.2 + off.2) = none) :
    1 ≤ (MazeGen.bfsStep rows cols g d cur s off).maxDist := by
  unfold MazeGen.bfsStep
  rw [if_pos h1]
  by_cases h2 : s.maxDist < d + 1
  · rw [if_pos h2]
    show 1 ≤ d + 1
    omega
  · rw [if_neg h2]
    show 1 ≤ s.maxDist
    omega

/-- A BFS neighbour examination does not change the distance of any
cell other than the examined neighbour. -/
theorem bfsStep_frame (rows cols : Nat) (g : Grid) (d : Nat) (cur : Pos)
    (s : MazeGen.BfsState) (off : Int × Int) (p : Pos)
    (hne : p ≠ (cur.1 + off.1, cur.2 + off.2)) :
    (MazeGen.bfsStep rows cols g d cur s off).dist p = s.dist p := by
  unfold MazeGen.bfsStep
  by_cases h1 : MazeGen.isValidCell rows cols (cur.1 + off.1) (cur.2 + off.2) = true ∧
      g (cur.1 + off.1) (cur.2 + off.2) ≠ cellWALL ∧
      s.dist (cur.1 + off.1, cur.2 + off.2) = none
  · rw [if_pos h1]
    by_cases h2 : s.maxDist < d + 1
    · rw [if_pos h2]
      show (if p = (cur.1 + off.1, cur.2 + off.2) then some (d + 1) else s.dist p) = s.dist p
      rw [if_neg hne]
    · rw [if_neg h2]
      show (if p = (cur.1 + off.1, cur.2 + off.2) then some (d + 1) else s.dist p) = s.dist p
      rw [if_neg hne]
  · rw [if_neg h1]

/-- Fold version of `bfsStep_mono`. -/
theorem bfsFold_mono (rows cols : Nat) (g : Grid) (d : Nat) (cur : Pos) :
    ∀ (offs : List (Int × Int)) (s : MazeGen.BfsState),
      s.maxDist ≤ (List.foldl (MazeGen.bfsStep rows cols g d cur) s offs).maxDist := by
  intro offs
  induction offs with
  | nil => intro s; exact Nat.le_refl _
  | cons o os ih =>
    intro s
    rw [List.foldl_cons]
    exact (bfsStep_mono rows cols g d cur s o).trans (ih _)

/-- Fold version of `bfsStep_dist_some`. -/
theorem bfsFold_dist_some (rows cols : Nat) (g : Grid) (d : Nat) (cur : Pos) :
    ∀ (offs : List (Int × Int)) (s : MazeGen.BfsState) (p : Pos) (v : Nat),
      s.dist p = some v →
      (List.foldl (MazeGen.bfsStep rows cols g d cur) s offs).dist p = some v := by
  intro offs
  induction offs with
  | nil => intro s p v h; exact h
  | cons o os ih =>
    intro s p v h
    rw [List.foldl_cons]
    exact ih _ p v (bfsStep_dist_some rows cols g d cur s o p v h)

/-- Fold version of `bfsStep_tracked`. -/
theorem bfsFold_tracked (rows cols : Nat) (g : Grid) (d : Nat) (cur : Pos) :
    ∀ (offs : List (Int × Int)) (s : MazeGen.BfsState),
      s.dist s.maxPoint = some s.maxDist →
      (List.foldl (MazeGen.bfsStep rows cols g d cur) s offs).dist
        (List.foldl (MazeGen.bfsStep rows cols g d cur) s offs).maxPoint =
      some (List.foldl (MazeGen.bfsStep rows cols g d cur) s offs).maxDist := by
  intro offs
  induction offs with
  | nil => intro s h; exact h
  | cons o os ih =>
    intro s h
    rw [List.foldl_cons]
    exact ih _ (bfsStep_tracked rows cols g d cur s o h)

/-- The BFS loop preserves: the origin's distance 0, the farthest
point's recorded distance, and a farthest distance of at least 1. -/
theorem bfsLoop_pres (rows cols : Nat) (g : Grid) (a : Pos) :
    ∀ (fuel : Nat) (st : MazeGen.BfsState),
      st.dist a = some 0 →
      st.dist st.maxPoint = some st.maxDist →
      1 ≤ st.maxDist →
      (MazeGen.bfsLoop rows cols g fuel st).dist a = some 0 ∧
      (MazeGen.bfsLoop rows cols g fuel st).dist
        (MazeGen.bfsLoop rows cols g fuel st).maxPoint =
        some (MazeGen.bfsLoop rows cols g fuel st).maxDist ∧
      1 ≤ (MazeGen.bfsLoop rows cols g fuel st).maxDist := by
  intro fuel
  induction fuel with
  | zero => intro st h1 h2 h3; exact ⟨h1, h2, h3⟩
  | succ n ih =>
    intro st h1 h2 h3
    simp only [MazeGen.bfsLoop]
    cases hq : st.queue with
    | nil => exact ⟨h1, h2, h3⟩
    | cons cur rest =>
      apply ih
      · exact bfsFold_dist_some rows cols g _ cur directionOffsets _ a 0 h1
      · exact bfsFold_tracked rows cols g _ cur directionOffsets _ h2
      · exact h3.trans (bfsFold_mono rows cols g ((st.dist cur).getD 0) cur
          directionOffsets { st with queue := rest })

/-- After the first BFS iteration from (1,1) on a grid whose cell (2,1)
or (1,2) is passable, the farthest distance is at least 1. -/
theorem bfs_first_maxDist (rows cols : Nat) (g : Grid) (hr : 5 ≤ rows) (hc : 5 ≤ cols)
    (hnb : g 2 1 ≠ cellWALL ∨ g 1 2 ≠ cellWALL) :
    1 ≤ (MazeGen.bfsExpand rows cols g 0 (1, 1)
      { queue := [], dist := fun p => if p = ((1 : Int), (1 : Int)) then some 0 else none,
        maxDist := 0, maxPoint := (1, 1) }).maxDist := by
  have hv21 : MazeGen.isValidCell rows cols 2 1 = true := by
    apply inBoundsB_of
    omega
  have hv12 : MazeGen.isValidCell rows cols 1 2 = true := by
    apply inBoundsB_of
    omega
  rw [MazeGen.bfsExpand, show directionOffsets = [(-1, 0), (1, 0), (0, -1), (0, 1)] from rfl]
  rcases hnb with hP | hP
  · rw [List.foldl_cons, List.foldl_cons]
    refine Nat.le_trans (bfsStep_takes rows cols g 0 (1, 1) _ (1, 0) ⟨hv21, hP, ?_⟩)
      (bfsFold_mono rows cols g 0 (1, 1) [(0, -1), (0, 1)] _)
    show (MazeGen.bfsStep rows cols g 0 (1, 1) _ (-1, 0)).dist (2, 1) = none
    rw [bfsStep_frame rows cols g 0 (1, 1) _ (-1, 0) (2, 1) (by decide)]
    show (if ((2 : Int), (1 : Int)) = ((1 : Int), (1 : Int)) then some 0 else none) = none
    rw [if_neg (by decide)]
  · rw [List.foldl_cons, List.foldl_cons, List.foldl_cons, List.foldl_cons, List.foldl_nil]
    refine bfsStep_takes rows cols g 0 (1, 1) _ (0, 1) ⟨hv12, hP, ?_⟩
    show (MazeGen.bfsStep rows cols g 0 (1, 1)
      (MazeGen.bfsStep rows cols g 0 (1, 1)
        (MazeGen.bfsStep rows cols g 0 (1, 1) _ (-1, 0)) (1, 0)) (0, -1)).dist (1, 2) = none
    rw [bfsStep_frame rows cols g 0 (1, 1) _ (0, -1) (1, 2) (by decide)]
    rw [bfsStep_frame rows cols g 0 (1, 1) _ (1, 0) (1, 2) (by decide)]
    rw [bfsStep_frame rows cols g 0 (1, 1) _ (-1, 0) (1, 2) (by decide)]
    show (if ((1 : Int), (2 : Int)) = ((1 : Int), (1 : Int)) then some 0 else none) = none
    rw [if_neg (by decide)]

/-- On any grid with a passable cell at (2,1) or (1,2), the BFS
farthest point from (1,1) is not (1,1) itself. -/
theorem findDistantPoint_ne (rows cols : Nat) (g : Grid) (hr : 5 ≤ rows) (hc : 5 ≤ cols)
    (hnb : g 2 1 ≠ cellWALL ∨ g 1 2 ≠ cellWALL) :
    MazeGen.findDistantPoint rows cols g 1 1 ≠ (1, 1) := by
  show (MazeGen.bfsLoop rows cols g (rows * cols + 2)
    { queue := [(1, 1)],
      dist := fun p => if p = ((1 : Int), (1 : Int)) then some 0 else none,
      maxDist := 0, maxPoint := (1, 1) }).maxPoint ≠ (1, 1)
  rw [show rows * cols + 2 = (rows * cols + 1) + 1 from rfl]
  generalize rows * cols + 1 = m
  show (MazeGen.bfsLoop rows cols g m (MazeGen.bfsExpand rows cols g 0 (1, 1)
    { queue := [], dist := fun p => if p = ((1 : Int), (1 : Int)) then some 0 else none,
      maxDist := 0, maxPoint := (1, 1) })).maxPoint ≠ (1, 1)
  have hd0 : (MazeGen.bfsExpand rows cols g 0 (1, 1)
      { queue := [], dist := fun p => if p = ((1 : Int), (1 : Int)) then some 0 else none,
        maxDist := 0, maxPoint := (1, 1) }).dist (1, 1) = some 0 := by
    apply bfsFold_dist_some
    show (if ((1 : Int), (1 : Int)) = ((1 : Int), (1 : Int)) then some 0 else none) = some 0
    rw [if_pos rfl]
  have htr := bfsFold_tracked rows cols g 0 (1, 1) directionOffsets
    { queue := [], dist := fun p => if p = ((1 : Int), (1 : Int)) then some 0 else none,
      maxDist := 0, maxPoint := (1, 1) }
    (by decide)
  have hmax := bfs_first_maxDist rows cols g hr hc hnb
  obtain ⟨h1, h2, h3⟩ := bfsLoop_pres rows cols g (1, 1) m _ hd0 htr hmax
  intro he
  rw [he, h1] at h2
  have : (0 : Nat) = (MazeGen.bfsLoop rows cols g m (MazeGen.bfsExpand rows cols g 0 (1, 1)
      { queue := [], dist := fun p => if p = ((1 : Int), (1 : Int)) then some 0 else none,
        maxDist := 0, maxPoint := (1, 1) })).maxDist := by
    injection h2
  omega

/-- The wall pass never changes a cell that is not EMPTY. -/
theorem addRandomWallsLoop_keeps (rows cols : Nat) (rng : RNG) (v : Cell)
    (hv : ¬ v = cellEMPTY) :
    ∀ (n : Nat) (g : Grid) (k : Nat) (r c : Int), g r c = v →
      (MazeGen.addRandomWallsLoop rows cols rng n g k).1 r c = v := by
  intro n
  induction n with
  | zero => intro g k r c h; exact h
  | succ m ih =>
    intro g k r c h
    simp only [MazeGen.addRandomWallsLoop]
    apply ih
    by_cases hw : g ((rng k % (rows - 2) : Nat) + 1 : Int)
        ((rng (k + 1) % (cols - 2) : Nat) + 1 : Int) = cellEMPTY
    · rw [if_pos hw]
      show (if r = ((rng k % (rows - 2) : Nat) + 1 : Int) ∧
          c = ((rng (k + 1) % (cols - 2) : Nat) + 1 : Int) then cellWALL else g r c) = v
      by_cases hrc : r = ((rng k % (rows - 2) : Nat) + 1 : Int) ∧
          c = ((rng (k + 1) % (cols - 2) : Nat) + 1 : Int)
      · exfalso
        apply hv
        rw [← h, hrc.1, hrc.2]
        exact hw
      · rw [if_neg hrc]
        exact h
    · rw [if_neg hw]
      exact h

/-- The passage pass never changes a cell that is not WALL. -/
theorem addRandomPathsLoop_keeps (rows cols : Nat) (rng : RNG) (v : Cell)
    (hv : ¬ v = cellWALL) :
    ∀ (n : Nat) (g : Grid) (k : Nat) (r c : Int), g r c = v →
      (MazeGen.addRandomPathsLoop rows cols rng n g k).1 r c = v := by
  intro n
  induction n with
  | zero => intro g k r c h; exact h
  | succ m ih =>
    intro g k r c h
    simp only [MazeGen.addRandomPathsLoop]
    apply ih
    by_cases hw : g ((rng k % (rows - 2) : Nat) + 1 : Int)
        ((rng (k + 1) % (cols - 2) : Nat) + 1 : Int) = cellWALL
    · rw [if_pos hw]
      show (if r = ((rng k % (rows - 2) : Nat) + 1 : Int) ∧
          c = ((rng (k + 1) % (cols - 2) : Nat) + 1 : Int) then cellEMPTY else g r c) = v
      by_cases hrc : r = ((rng k % (rows - 2) : Nat) + 1 : Int) ∧
          c = ((rng (k + 1) % (cols - 2) : Nat) + 1 : Int)
      · exfalso
        apply hv
        rw [← h, hrc.1, hrc.2]
        exact hw
      · rw [if_neg hrc]
        exact h
    · rw [if_neg hw]
      exact h

/-- The placement stage puts START at (1,1) and the finish somewhere
else. -/
theorem stagePlaced_start (rows cols : Nat) (rng : RNG) (hr : 5 ≤ rows) (hc : 5 ≤ cols) :
    (MazeGen.stagePlaced rows cols rng).1 1 1 = cellSTART ∧
    (MazeGen.stagePlaced rows cols rng).2.2 ≠ ((1 : Int), (1 : Int)) := by
  have hfin : MazeGen.findDistantPoint rows cols
      (gridSet (MazeGen.carveOut rows cols rng).1 (1, 1) cellSTART) 1 1 ≠ (1, 1) := by
    apply findDistantPoint_ne rows cols _ hr hc
    rcases carveOut_neighbor rows cols rng hr hc with h | h
    · left
      show (if (2 : Int) = 1 ∧ (1 : Int) = 1 then cellSTART
        else (MazeGen.carveOut rows cols rng).1 2 1) ≠ cellWALL
      rw [if_neg (by norm_num), h]
      decide
    · right
      show (if (1 : Int) = 1 ∧ (2 : Int) = 1 then cellSTART
        else (MazeGen.carveOut rows cols rng).1 1 2) ≠ cellWALL
      rw [if_neg (by norm_num), h]
      decide
  constructor
  · show (if (1 : Int) = (MazeGen.findDistantPoint rows cols
        (gridSet (MazeGen.carveOut rows cols rng).1 (1, 1) cellSTART) 1 1).1 ∧
        (1 : Int) = (MazeGen.findDistantPoint rows cols
        (gridSet (MazeGen.carveOut rows cols rng).1 (1, 1) cellSTART) 1 1).2
      then cellFINISH
      else gridSet (MazeGen.carveOut rows cols rng).1 (1, 1) cellSTART 1 1) = cellSTART
    rw [if_neg (show ¬((1 : Int) = (MazeGen.findDistantPoint rows cols
        (gridSet (MazeGen.carveOut rows cols rng).1 (1, 1) cellSTART) 1 1).1 ∧
        (1 : Int) = (MazeGen.findDistantPoint rows cols
        (gridSet (MazeGen.carveOut rows cols rng).1 (1, 1) cellSTART) 1 1).2) by
      intro hco
      exact hfin (Prod.ext_iff.mpr ⟨hco.1.symm, hco.2.symm⟩))]
    show (if (1 : Int) = 1 ∧ (1 : Int) = 1 then cellSTART
      else (MazeGen.carveOut rows cols rng).1 1 1) = cellSTART
    rw [if_pos ⟨rfl, rfl⟩]
  · exact hfin

/-- C10: in mazeGenerator.js every maze produced by `generate` has its
START cell at the fixed position (1,1): the carving walk begins at
(1,1), `addStartAndFinish` writes START there and places FINISH at a
different cell, the difficulty passes only convert EMPTY/WALL cells,
and the boundary sealing does not touch the interior cell (1,1) - all
independently of the random stream. -/
theorem generate_start_always_11 (rows cols : Nat) (d : MazeGen.Difficulty) (rng : RNG)
    (hr : 5 ≤ rows) (hc : 5 ≤ cols) :
    (MazeGen.stagePlaced rows cols rng).2.1 = (1, 1) ∧
    (MazeGen.stagePlaced rows cols rng).1 1 1 = cellSTART ∧
    MazeGen.sealedGrid rows cols d rng 1 1 = cellSTART ∧
    (∀ g s f, MazeGen.generate rows cols d rng = .ok (g, s, f) →
      s = (1, 1) ∧ g 1 1 = cellSTART) := by
  have hplaced := stagePlaced_start rows cols rng hr hc
  have hadj : MazeGen.stageAdjusted rows cols d rng 1 1 = cellSTART := by
    unfold MazeGen.stageAdjusted MazeGen.adjustDifficulty MazeGen.addRandomWalls
      MazeGen.addRandomPaths
    apply addRandomPathsLoop_keeps rows cols rng cellSTART (by decide)
    apply addRandomWallsLoop_keeps rows cols rng cellSTART (by decide)
    exact hplaced.1
  have hseal : MazeGen.sealedGrid rows cols d rng 1 1 = cellSTART := by
    unfold MazeGen.sealedGrid MazeGen.ensureBoundaryWalls
    rw [if_neg (show ¬((1 : Int) = 0 ∨ (1 : Int) = (rows : Int) - 1 ∨ (1 : Int) = 0 ∨
        (1 : Int) = (cols : Int) - 1) by omega)]
    exact hadj
  refine ⟨rfl, hplaced.1, hseal, ?_⟩
  intro g s f h
  unfold MazeGen.generate at h
  split at h
  · split at h
    · rw [Except.ok.injEq] at h
      constructor
      · exact (congrArg (fun t => t.2.1) h).symm
      · have hg : g = MazeGen.sealedGrid rows cols d rng := (congrArg Prod.fst h).symm
        rw [hg]
        exact hseal
    · exact absurd h (by simp)
    · exact absurd h (by simp)
  · exact absurd h (by simp)

/-- Witness for `generate_start_always_11` at 5 by 5, medium tier. -/
theorem generate_start_always_11_witness :
    (5 ≤ 5 ∧ 5 ≤ 5) ∧
    ((MazeGen.stagePlaced 5 5 (rngOf [])).2.1 = (1, 1) ∧
     (MazeGen.stagePlaced 5 5 (rngOf [])).1 1 1 = cellSTART ∧
     MazeGen.sealedGrid 5 5 .medium (rngOf []) 1 1 = cellSTART ∧
     (∀ g s f, MazeGen.generate 5 5 .medium (rngOf []) = .ok (g, s, f) →
       s = (1, 1) ∧ g 1 1 = cellSTART)) :=
  ⟨⟨by decide, by decide⟩,
    generate_start_always_11 5 5 .medium (rngOf []) (by decide) (by decide)⟩

/-! Completeness of the maze-utils.js A* (the direction of C4 that does
hold for that implementation): a reachable finish always yields a
non-empty path within the rows*cols*2 iteration cap. -/

/-- Membership in the in-bounds position set coincides with the
boolean bounds check. -/
theorem mem_inBoundsFinset (rows cols : Nat) (p : Pos) :
    p ∈ inBoundsFinset rows cols ↔ inBoundsB rows cols p.1 p.2 = true := by
  constructor
  · intro h
    rcases Finset.mem_image.mp h with ⟨rc, hrc, hmap⟩
    rcases Finset.mem_product.mp hrc with ⟨h1, h2⟩
    rw [Finset.mem_range] at h1 h2
    apply inBoundsB_of
    rw [← hmap]
    refine ⟨?_, ?_, ?_, ?_⟩ <;> · show _; omega
  · intro hb
    simp only [inBoundsB, Bool.and_eq_true, decide_eq_true_eq] at hb
    obtain ⟨⟨⟨hp1, hp2⟩, hp3⟩, hp4⟩ := hb
    apply Finset.mem_image.mpr
    refine ⟨(p.1.toNat, p.2.toNat), ?_, ?_⟩
    · apply Finset.mem_product.mpr
      constructor <;> rw [Finset.mem_range] <;> omega
    · exact Prod.ext_iff.mpr ⟨Int.toNat_of_nonneg hp1, Int.toNat_of_nonneg hp3⟩

/-- The in-bounds position set has exactly rows * cols elements. -/
theorem card_inBoundsFinset (rows cols : Nat) :
    (inBoundsFinset rows cols).card = rows * cols := by
  have hinj : Function.Injective (fun rc : Nat × Nat => ((rc.1 : Int), (rc.2 : Int))) := by
    intro a b h
    have h1 : (a.1 : Int) = b.1 := congrArg Prod.fst h
    have h2 : (a.2 : Int) = b.2 := congrArg Prod.snd h
    exact Prod.ext_iff.mpr ⟨by exact_mod_cast h1, by exact_mod_cast h2⟩
  rw [inBoundsFinset, Finset.card_image_of_injective _ hinj, Finset.card_product,
    Finset.card_range, Finset.card_range]

/-- A passable neighbour is in bounds. -/
theorem passable_inB (rows cols : Nat) (g : Grid) (p q : Pos)
    (h : q ∈ passableNeighbors rows cols g p) :
    inBoundsB rows cols q.1 q.2 = true := by
  unfold passableNeighbors at h
  rcases List.mem_filterMap.mp h with ⟨off, _, hsome⟩
  have hs : (if inBoundsB rows cols (p.1 + off.1) (p.2 + off.2) = true ∧
      g (p.1 + off.1) (p.2 + off.2) ≠ cellWALL
      then some ((p.1 + off.1, p.2 + off.2) : Pos) else none) = some q := hsome
  by_cases hc : inBoundsB rows cols (p.1 + off.1) (p.2 + off.2) = true ∧
      g (p.1 + off.1) (p.2 + off.2) ≠ cellWALL
  · rw [if_pos hc] at hs
    injection hs with hq
    rw [← hq]
    exact hc.1
  · rw [if_neg hc] at hs
    cases hs

/-- `List.getD` with an in-range index is the indexed element. -/
theorem getD_eq_get {α : Type} :
    ∀ (l : List α) (i : Nat) (d : α) (h : i < l.length), l.getD i d = l.get ⟨i, h⟩ := by
  intro l
  induction l with
  | nil => intro i d h; exact absurd h (Nat.not_lt_zero i)
  | cons a l ih =>
    intro i d h
    cases i with
    | zero => rfl
    | succ i => exact ih i d (Nat.lt_of_succ_lt_succ h)

/-- In a duplicate-free list, the element at an index does not survive
erasing that index. -/
theorem get_not_mem_eraseIdx {α : Type} :
    ∀ (l : List α), l.Nodup → ∀ (i : Nat) (h : i < l.length),
      l.get ⟨i, h⟩ ∉ l.eraseIdx i := by
  intro l
  induction l with
  | nil => intro _ i h; exact absurd h (Nat.not_lt_zero i)
  | cons a l ih =>
    intro hnd i h
    rw [List.nodup_cons] at hnd
    cases i with
    | zero => exact hnd.1
    | succ i =>
      show l.get ⟨i, Nat.lt_of_succ_lt_succ h⟩ ∉ a :: l.eraseIdx i
      intro hmem
      rcases List.mem_cons.mp hmem with h1 | h1
      · apply hnd.1
        rw [← h1]
        exact List.get_mem _ _ _
      · exact ih hnd.2 i (Nat.lt_of_succ_lt_succ h) h1

/-- A member distinct from the element at the erased index survives
`eraseIdx`. -/
theorem mem_eraseIdx_of_ne {α : Type} :
    ∀ (l : List α) (i : Nat) (a : α), a ∈ l →
      (∀ (h : i < l.length), l.get ⟨i, h⟩ ≠ a) → a ∈ l.eraseIdx i := by
  intro l
  induction l with
  | nil => intro i a ha _; exact absurd ha (List.not_mem_nil a)
  | cons x l ih =>
    intro i a ha hne
    cases i with
    | zero =>
      show a ∈ l
      rcases List.mem_cons.mp ha with h | h
      · exact absurd h.symm (hne (Nat.succ_pos _))
      · exact h
    | succ i =>
      show a ∈ x :: l.eraseIdx i
      rcases List.mem_cons.mp ha with h | h
      · rw [h]
        exact List.mem_cons_self _ _
      · exact List.mem_cons_of_mem _
          (ih i a h (fun hh => hne (Nat.succ_lt_succ hh)))

/-- A duplicate-free image list makes the mapped function injective on
the list. -/
theorem nodup_map_inj {α β : Type} (f : α → β) :
    ∀ (l : List α), (l.map f).Nodup → ∀ x ∈ l, ∀ y ∈ l, f x = f y → x = y := by
  intro l
  induction l with
  | nil => intro _ x hx; exact absurd hx (List.not_mem_nil x)
  | cons a l ih =>
    intro hnd x hx y hy hf
    rw [List.map_cons, List.nodup_cons] at hnd
    rcases List.mem_cons.mp hx with hx' | hx' <;> rcases List.mem_cons.mp hy with hy' | hy'
    · rw [hx', hy']
    · exfalso
      apply hnd.1
      rw [hx'] at hf
      rw [hf]
      exact List.mem_map_of_mem f hy'
    · exfalso
      apply hnd.1
      rw [hy'] at hf
      rw [← hf]
      exact List.mem_map_of_mem f hx'
    · exact ih hnd.2 x hx' y hy' hf

/-- The minimum-f scan returns an index below any bound that covers the
running best and the remaining indices. -/
theorem lowestFrom_lt (M : Nat) :
    ∀ (l : List MazeUtils.Node) (i best bf : Nat), best < M → i + l.length ≤ M →
      MazeUtils.lowestFrom l i best bf < M := by
  intro l
  induction l with
  | nil => intro i best bf hb _; exact hb
  | cons n rest ih =>
    intro i best bf hb hi
    rw [List.length_cons] at hi
    show (if n.f < bf then MazeUtils.lowestFrom rest (i + 1) i n.f
      else MazeUtils.lowestFrom rest (i + 1) best bf) < M
    by_cases hc : n.f < bf
    · rw [if_pos hc]
      exact ih (i + 1) i n.f (by omega) (by omega)
    · rw [if_neg hc]
      exact ih (i + 1) best bf hb (by omega)

/-- The minimum-f index is always in range. -/
theorem lowestIndex_lt (n0 : MazeUtils.Node) (rest : List MazeUtils.Node) :
    MazeUtils.lowestIndex (n0 :: rest) < (n0 :: rest).length := by
  show MazeUtils.lowestFrom rest 1 0 n0.f < (n0 :: rest).length
  apply lowestFrom_lt
  · rw [List.length_cons]
    omega
  · rw [List.length_cons]
    omega

/-- Replacing the nodes at one position by a node at that same position
leaves the open-set position list unchanged. -/
theorem update_map_pos (q : Pos) (NEW : MazeUtils.Node) (hNEW : NEW.pos = q) :
    ∀ (os : List MazeUtils.Node),
      (os.map (fun n => if n.pos == q then NEW else n)).map MazeUtils.Node.pos =
      os.map MazeUtils.Node.pos := by
  intro os
  induction os with
  | nil => rfl
  | cons n os ih =>
    simp only [List.map_cons]
    by_cases h : n.pos == q
    · rw [if_pos h, ih, hNEW, eq_of_beq h]
    · rw [if_neg h, ih]

/-- `processNeighbor` never loses an open position. -/
theorem processNeighbor_pos_mono (cur : MazeUtils.Node) (fR fC : Int) (cl : List Pos)
    (os : List MazeUtils.Node) (q p : Pos)
    (hp : p ∈ os.map MazeUtils.Node.pos) :
    p ∈ (MazeUtils.processNeighbor cur fR fC cl os q).map MazeUtils.Node.pos := by
  unfold MazeUtils.processNeighbor
  by_cases hq : q ∈ cl
  · rw [if_pos hq]
    exact hp
  · rw [if_neg hq]
    split
    next ex hfind =>
      by_cases h2 : cur.g + 1 < ex.g
      · rw [if_pos h2, update_map_pos q (MazeUtils.Node.mk q (cur.g + 1)
          (cur.g + 1 + MazeUtils.heuristic q.1 q.2 fR fC) (some cur)) rfl os]
        exact hp
      · rw [if_neg h2]
        exact hp
    next hfind =>
      rw [List.map_append]
      exact List.mem_append_left _ hp

/-- After `processNeighbor` on a neighbour q, q is closed or open. -/
theorem processNeighbor_adds (cur : MazeUtils.Node) (fR fC : Int) (cl : List Pos)
    (os : List MazeUtils.Node) (q : Pos) :
    q ∈ cl ∨ q ∈ (MazeUtils.processNeighbor cur fR fC cl os q).map MazeUtils.Node.pos := by
  by_cases hq : q ∈ cl
  · exact Or.inl hq
  · right
    unfold MazeUtils.processNeighbor
    rw [if_neg hq]
    split
    next ex hfind =>
      have hexm : ex ∈ os := List.mem_of_find?_eq_some hfind
      have hP := List.find?_some hfind
      have hexp : ex.pos = q := eq_of_beq hP
      by_cases h2 : cur.g + 1 < ex.g
      · rw [if_pos h2, update_map_pos q (MazeUtils.Node.mk q (cur.g + 1)
          (cur.g + 1 + MazeUtils.heuristic q.1 q.2 fR fC) (some cur)) rfl os]
        exact List.mem_map.mpr ⟨ex, hexm, hexp⟩
      · rw [if_neg h2]
        exact List.mem_map.mpr ⟨ex, hexm, hexp⟩
    next hfind =>
      rw [List.map_append]
      exact List.mem_append_right _ (List.mem_singleton.mpr rfl)

/-- `processNeighbor` keeps the open position list duplicate-free. -/
theorem processNeighbor_posNodup (cur : MazeUtils.Node) (fR fC : Int) (cl : List Pos)
    (os : List MazeUtils.Node) (q : Pos)
    (h : (os.map MazeUtils.Node.pos).Nodup) :
    ((MazeUtils.processNeighbor cur fR fC cl os q).map MazeUtils.Node.pos).Nodup := by
  unfold MazeUtils.processNeighbor
  by_cases hq : q ∈ cl
  · rw [if_pos hq]
    exact h
  · rw [if_neg hq]
    split
    next ex hfind =>
      by_cases h2 : cur.g + 1 < ex.g
      · rw [if_pos h2, update_map_pos q (MazeUtils.Node.mk q (cur.g + 1)
          (cur.g + 1 + MazeUtils.heuristic q.1 q.2 fR fC) (some cur)) rfl os]
        exact h
      · rw [if_neg h2]
        exact h
    next hfind =>
      have hqnot : q ∉ os.map MazeUtils.Node.pos := by
        intro hmem
        rcases List.mem_map.mp hmem with ⟨n, hn, hnp⟩
        exact List.find?_eq_none.mp hfind n hn (beq_iff_eq.mpr hnp)
      rw [List.map_append, List.nodup_append]
      refine ⟨h, List.nodup_singleton _, ?_⟩
      intro a ha hb
      have hab : a = q := List.mem_singleton.mp hb
      rw [hab] at ha
      exact hqnot ha

/-- A per-position property that holds on the open set and on every
non-closed processed neighbour is preserved by `processNeighbor`. -/
theorem processNeighbor_all (cur : MazeUtils.Node) (fR fC : Int) (cl : List Pos)
    (os : List MazeUtils.Node) (q : Pos) (P : Pos → Prop)
    (hos : ∀ n ∈ os, P n.pos) (hq : q ∉ cl → P q) :
    ∀ n ∈ MazeUtils.processNeighbor cur fR fC cl os q, P n.pos := by
  intro n hn
  by_cases hcq : q ∈ cl
  · unfold MazeUtils.processNeighbor at hn
    rw [if_pos hcq] at hn
    exact hos n hn
  · rcases processNeighbor_mem cur fR fC cl os q n hn with h | h
    · exact hos n h
    · rw [h]
      exact hq hcq

/-- Fold version of `processNeighbor_pos_mono`. -/
theorem fold_processNeighbor_pos_mono (cur : MazeUtils.Node) (fR fC : Int) (cl : List Pos) :
    ∀ (nbrs : List Pos) (os : List MazeUtils.Node) (p : Pos),
      p ∈ os.map MazeUtils.Node.pos →
      p ∈ (List.foldl (MazeUtils.processNeighbor cur fR fC cl) os nbrs).map
        MazeUtils.Node.pos := by
  intro nbrs
  induction nbrs with
  | nil => intro os p hp; exact hp
  | cons q qs ih =>
    intro os p hp
    rw [List.foldl_cons]
    exact ih _ p (processNeighbor_pos_mono cur fR fC cl os q p hp)

/-- Fold version of `processNeighbor_adds`: every processed neighbour
ends up closed or open. -/
theorem fold_processNeighbor_adds (cur : MazeUtils.Node) (fR fC : Int) (cl : List Pos) :
    ∀ (nbrs : List Pos) (os : List MazeUtils.Node) (q : Pos), q ∈ nbrs →
      q ∈ cl ∨ q ∈ (List.foldl (MazeUtils.processNeighbor cur fR fC cl) os nbrs).map
        MazeUtils.Node.pos := by
  intro nbrs
  induction nbrs with
  | nil => intro os q hq; exact absurd hq (List.not_mem_nil q)
  | cons q0 qs ih =>
    intro os q hq
    rw [List.foldl_cons]
    rcases List.mem_cons.mp hq with h | h
    · rcases processNeighbor_adds cur fR fC cl os q0 with h' | h'
      · rw [h]
        exact Or.inl h'
      · rw [h]
        exact Or.inr (fold_processNeighbor_pos_mono cur fR fC cl qs _ q0 h')
    · exact ih _ q h

/-- Fold version of `processNeighbor_posNodup`. -/
theorem fold_processNeighbor_posNodup (cur : MazeUtils.Node) (fR fC : Int) (cl : List Pos) :
    ∀ (nbrs : List Pos) (os : List MazeUtils.Node),
      (os.map MazeUtils.Node.pos).Nodup →
      ((List.foldl (MazeUtils.processNeighbor cur fR fC cl) os nbrs).map
        MazeUtils.Node.pos).Nodup := by
  intro nbrs
  induction nbrs with
  | nil => intro os h; exact h
  | cons q qs ih =>
    intro os h
    rw [List.foldl_cons]
    exact ih _ (processNeighbor_posNodup cur fR fC cl os q h)

/-- Fold version of `processNeighbor_all`. -/
theorem fold_processNeighbor_all (cur : MazeUtils.Node) (fR fC : Int) (cl : List Pos)
    (P : Pos → Prop) :
    ∀ (nbrs : List Pos) (os : List MazeUtils.Node),
      (∀ n ∈ os, P n.pos) → (∀ q ∈ nbrs, q ∉ cl → P q) →
      ∀ n ∈ List.foldl (MazeUtils.processNeighbor cur fR fC cl) os nbrs, P n.pos := by
  intro nbrs
  induction nbrs with
  | nil => intro os hos _ n hn; exact hos n hn
  | cons q qs ih =>
    intro os hos hq n hn
    rw [List.foldl_cons] at hn
    exact ih _ (processNeighbor_all cur fR fC cl os q P hos (hq q (List.mem_cons_self _ _)))
      (fun q' hq' => hq q' (List.mem_cons_of_mem _ hq')) n hn

/-- Completeness of the maze-utils A* loop: with a reachable finish and
the loop invariants (finish not yet closed; open and closed disjoint;
open positions in bounds and duplicate-free; closed positions
neighbour-complete up to the open set; start tracked; enough fuel for
every not-yet-closed in-bounds position), the loop returns a non-empty
path. -/
theorem muAStarLoop_complete (rows cols : Nat) (g : Grid) (sR sC fR fC : Int) :
    ∀ (fuel : Nat) (os : List MazeUtils.Node) (closed : List Pos),
      Reach rows cols g (sR, sC) (fR, fC) →
      (fR, fC) ∉ closed →
      (∀ n ∈ os, n.pos ∉ closed) →
      (∀ n ∈ os, inBoundsB rows cols n.pos.1 n.pos.2 = true) →
      (os.map MazeUtils.Node.pos).Nodup →
      (∀ p ∈ closed, ∀ q ∈ passableNeighbors rows cols g p,
        q ∈ closed ∨ q ∈ os.map MazeUtils.Node.pos) →
      ((sR, sC) ∈ closed ∨ (sR, sC) ∈ os.map MazeUtils.Node.pos) →
      (inBoundsFinset rows cols \ closed.toFinset).card < fuel →
      MazeUtils.muAStarLoop rows cols g sR sC fR fC fuel os closed ≠ [] := by
  intro fuel
  induction fuel with
  | zero =>
    intro os closed _ _ _ _ _ _ _ hcard
    exact absurd hcard (Nat.not_lt_zero _)
  | succ m ih =>
    intro os closed hreach hgoal hdisj hinB hnd hclosure hstart hcard
    cases os with
    | nil =>
      exfalso
      have hs : (sR, sC) ∈ closed := by
        rcases hstart with h | h
        · exact h
        · exact absurd h (List.not_mem_nil _)
      have hcl : ∀ p ∈ closed, ∀ q ∈ passableNeighbors rows cols g p, q ∈ closed := by
        intro p hp q hq
        rcases hclosure p hp q hq with h | h
        · exact h
        · exact absurd h (List.not_mem_nil _)
      exact hgoal (reach_subset_closed closed hs hcl hreach)
    | cons n0 rest =>
      simp only [MazeUtils.muAStarLoop]
      have hlt : MazeUtils.lowestIndex (n0 :: rest) < (n0 :: rest).length :=
        lowestIndex_lt n0 rest
      by_cases hcur :
          ((n0 :: rest).getD (MazeUtils.lowestIndex (n0 :: rest)) n0).pos = (fR, fC)
      · rw [if_pos hcur]
        intro hC
        simp [MazeUtils.reconstructNode] at hC
      · rw [if_neg hcur]
        have hcmem : (n0 :: rest).getD (MazeUtils.lowestIndex (n0 :: rest)) n0 ∈ n0 :: rest :=
          getD_mem _ _ _ (List.mem_cons_self n0 rest)
        have hcnotcl : ((n0 :: rest).getD (MazeUtils.lowestIndex (n0 :: rest)) n0).pos ∉
            closed := hdisj _ hcmem
        have hcinB : inBoundsB rows cols
            ((n0 :: rest).getD (MazeUtils.lowestIndex (n0 :: rest)) n0).pos.1
            ((n0 :: rest).getD (MazeUtils.lowestIndex (n0 :: rest)) n0).pos.2 = true :=
          hinB _ hcmem
        have hget : (n0 :: rest).getD (MazeUtils.lowestIndex (n0 :: rest)) n0 =
            (n0 :: rest).get ⟨MazeUtils.lowestIndex (n0 :: rest), hlt⟩ :=
          getD_eq_get _ _ _ hlt
        have hosnodup : (n0 :: rest).Nodup := List.Nodup.of_map _ hnd
        have hcur_not_er : (n0 :: rest).getD (MazeUtils.lowestIndex (n0 :: rest)) n0 ∉
            (n0 :: rest).eraseIdx (MazeUtils.lowestIndex (n0 :: rest)) := by
          rw [hget]
          exact get_not_mem_eraseIdx _ hosnodup _ hlt
        have hpos_not_er : ((n0 :: rest).getD (MazeUtils.lowestIndex (n0 :: rest)) n0).pos ∉
            ((n0 :: rest).eraseIdx (MazeUtils.lowestIndex (n0 :: rest))).map
              MazeUtils.Node.pos := by
          intro hmem
          rcases List.mem_map.mp hmem with ⟨n, hn, hnp⟩
          have hninos : n ∈ n0 :: rest :=
            (List.eraseIdx_sublist (n0 :: rest) (MazeUtils.lowestIndex (n0 :: rest))).mem hn
          have heq : n = (n0 :: rest).getD (MazeUtils.lowestIndex (n0 :: rest)) n0 :=
            nodup_map_inj MazeUtils.Node.pos _ hnd n hninos _ hcmem (by rw [hnp])
          rw [heq] at hn
          exact hcur_not_er hn
        have hsurvive : ∀ p, p ∈ (n0 :: rest).map MazeUtils.Node.pos →
            p ≠ ((n0 :: rest).getD (MazeUtils.lowestIndex (n0 :: rest)) n0).pos →
            p ∈ ((n0 :: rest).eraseIdx (MazeUtils.lowestIndex (n0 :: rest))).map
              MazeUtils.Node.pos := by
          intro p hp hne
          rcases List.mem_map.mp hp with ⟨n, hn, hnp⟩
          refine List.mem_map.mpr ⟨n, ?_, hnp⟩
          apply mem_eraseIdx_of_ne _ _ n hn
          intro h he
          apply hne
          rw [← hnp]
          have : (n0 :: rest).get ⟨MazeUtils.lowestIndex (n0 :: rest), h⟩ =
              (n0 :: rest).getD (MazeUtils.lowestIndex (n0 :: rest)) n0 := hget.symm
          rw [this] at he
          rw [← he]
        refine ih _ _ hreach ?_ ?_ ?_ ?_ ?_ ?_ ?_
        · intro hmem
          rcases List.mem_cons.mp hmem with h | h
          · exact hcur h.symm
          · exact hgoal h
        · refine fold_processNeighbor_all _ fR fC _
            (fun p => p ∉ ((n0 :: rest).getD (MazeUtils.lowestIndex (n0 :: rest)) n0).pos ::
              closed) _ _ ?_ ?_
          · intro n hn
            intro hmem
            rcases List.mem_cons.mp hmem with h | h
            · apply hpos_not_er
              rw [← h]
              exact List.mem_map_of_mem _ hn
            · exact hdisj n ((List.eraseIdx_sublist _ _).mem hn) h
          · intro q _ hq
            exact hq
        · refine fold_processNeighbor_all _ fR fC _
            (fun p => inBoundsB rows cols p.1 p.2 = true) _ _ ?_ ?_
          · intro n hn
            exact hinB n ((List.eraseIdx_sublist _ _).mem hn)
          · intro q hq _
            exact passable_inB rows cols g _ q hq
        · apply fold_processNeighbor_posNodup
          exact List.Nodup.sublist
            ((List.eraseIdx_sublist (n0 :: rest) (MazeUtils.lowestIndex (n0 :: rest))).map
              MazeUtils.Node.pos) hnd
        · intro p hp q hq
          rcases List.mem_cons.mp hp with hpc | hpc
          · rw [hpc] at hq
            exact fold_processNeighbor_adds _ fR fC _ _ _ q hq
          · rcases hclosure p hpc q hq with h | h
            · exact Or.inl (List.mem_cons_of_mem _ h)
            · by_cases hqc :
                  q = ((n0 :: rest).getD (MazeUtils.lowestIndex (n0 :: rest)) n0).pos
              · rw [hqc]
                exact Or.inl (List.mem_cons_self _ _)
              · exact Or.inr (fold_processNeighbor_pos_mono _ fR fC _ _ _ q
                  (hsurvive q h hqc))
        · rcases hstart with h | h
          · exact Or.inl (List.mem_cons_of_mem _ h)
          · by_cases hsc :
                (sR, sC) = ((n0 :: rest).getD (MazeUtils.lowestIndex (n0 :: rest)) n0).pos
            · rw [hsc]
              exact Or.inl (List.mem_cons_self _ _)
            · exact Or.inr (fold_processNeighbor_pos_mono _ fR fC _ _ _ _
                (hsurvive _ h hsc))
        · have hmemS : ((n0 :: rest).getD (MazeUtils.lowestIndex (n0 :: rest)) n0).pos ∈
              inBoundsFinset rows cols \ closed.toFinset :=
            Finset.mem_sdiff.mpr ⟨(mem_inBoundsFinset rows cols _).mpr hcinB,
              fun hc => hcnotcl (List.mem_toFinset.mp hc)⟩
          have hone : 1 ≤ (inBoundsFinset rows cols \ closed.toFinset).card :=
            Finset.card_pos.mpr ⟨_, hmemS⟩
          rw [List.toFinset_cons]
          have hsd : inBoundsFinset rows cols \
              insert ((n0 :: rest).getD (MazeUtils.lowestIndex (n0 :: rest)) n0).pos
                closed.toFinset =
              (inBoundsFinset rows cols \ closed.toFinset).erase
                ((n0 :: rest).getD (MazeUtils.lowestIndex (n0 :: rest)) n0).pos := by
            ext x
            simp only [Finset.mem_sdiff, Finset.mem_insert, Finset.mem_erase]
            tauto
          rw [hsd, Finset.card_erase_of_mem hmemS]
          omega

/-- The maze-utils A* finds a path whenever one exists (in-bounds
start). -/
theorem mu_findPath_complete (rows cols : Nat) (g : Grid) (sR sC fR fC : Int)
    (hs : inBoundsB rows cols sR sC = true)
    (hreach : Reach rows cols g (sR, sC) (fR, fC)) :
    MazeUtils.findPath rows cols g sR sC fR fC ≠ [] := by
  have hrc : 1 ≤ rows ∧ 1 ≤ cols := by
    simp only [inBoundsB, Bool.and_eq_true, decide_eq_true_eq] at hs
    constructor <;> omega
  have hs' : inBoundsB rows cols sR sC = true := by
    simpa [inBoundsB] using hs
  show MazeUtils.muAStarLoop rows cols g sR sC fR fC (rows * cols * 2)
    [MazeUtils.Node.mk (sR, sC) 0 (MazeUtils.heuristic sR sC fR fC) none] [] ≠ []
  apply muAStarLoop_complete rows cols g sR sC fR fC _ _ _ hreach
  · exact List.not_mem_nil _
  · intro n _
    exact List.not_mem_nil _
  · intro n hn
    have hn' : n = MazeUtils.Node.mk (sR, sC) 0 (MazeUtils.heuristic sR sC fR fC) none := by
      simpa using hn
    rw [hn']
    exact hs'
  · exact List.nodup_singleton _
  · intro p hp
    exact absurd hp (List.not_mem_nil _)
  · exact Or.inr (List.mem_singleton.mpr rfl)
  · rw [List.toFinset_nil, Finset.sdiff_empty, card_inBoundsFinset]
    have h1 : 0 < rows * cols := Nat.mul_pos hrc.1 hrc.2
    omega

/-- C4 (amended): for the maze-utils.js `findPath` (the one whose
non-emptiness the wall-sealing pass tests), the A* success/failure
agrees with BFS reachability on every grid and in-bounds start: the
result is non-empty exactly when the finish is reachable from the
start through 4-directional non-WALL cells.  (The mazeGenerator.js
`findPath` does not satisfy this equivalence.) -/
theorem mu_findPath_iff_reach (rows cols : Nat) (g : Grid) (sR sC fR fC : Int)
    (hs : inBoundsB rows cols sR sC = true) :
    MazeUtils.findPath rows cols g sR sC fR fC ≠ [] ↔
    Reach rows cols g (sR, sC) (fR, fC) :=
  ⟨mu_findPath_sound rows cols g sR sC fR fC, mu_findPath_complete rows cols g sR sC fR fC hs⟩

/-- Witness for `mu_findPath_iff_reach` on the 5 by 5 three-cell
corridor grid. -/
theorem mu_findPath_iff_reach_witness :
    inBoundsB 5 5 1 1 = true ∧
    (MazeUtils.findPath 5 5 gridCorr3 1 1 1 3 ≠ [] ↔
      Reach 5 5 gridCorr3 (1, 1) (1, 3)) :=
  ⟨by decide, mu_findPath_iff_reach 5 5 gridCorr3 1 1 1 3 (by decide)⟩

end Snail
